import Mathlib

/-!
# Verification of the rcompare patch engine against its specification

The repository ships the C API headers (`rcompare.h`, `rcompare_ffi.h`) and
example clients; the engine behind the FFI boundary is not part of the
source tree.  Following the specification (spec.md), the engine is modelled
here as a shallow embedding: text is a list of characters, the parsed
object graph is the PatchSet / FilePatch / Hunk / Difference tree of §3,
and the parser, blend engine, apply engine and serializer are executable
Lean functions written from §4's component contracts.  Line numbers are
modelled as derived state (a pure function of the Difference sequence and
the applied flags), exactly as §9 of the spec prescribes.
-/

set_option linter.unusedVariables false

namespace RCompare

abbrev Chars := List Char

/-- Diff output format (RCompareDiffFormat in rcompare.h). -/
inductive DiffFormat
  | unknown
  | unified
  | context
  | normal
  | ed
  | rcs
deriving DecidableEq, Repr

/-- Generating tool (RCompareDiffGenerator in rcompare.h). -/
inductive DiffGenerator
  | unknown
  | diff
  | cvs
  | perforce
  | subversion
deriving DecidableEq, Repr

/-- Type of a difference block (RCompareDifferenceType in rcompare.h). -/
inductive DifferenceType
  | unchanged
  | change
  | insert
  | delete
deriving DecidableEq, Repr

/-- Hunk kind: original hunk versus context added by blending. -/
inductive HunkType
  | normal
  | addedByBlend
deriving DecidableEq, Repr

/-- Modelled from the spec §3: smallest structural unit, a run of
changed/inserted/deleted/unchanged lines.  Line numbers are derived state
(see `fpLineNos`), per the design note in §9. -/
structure Difference where
  type : DifferenceType
  sourceLines : List Chars
  destLines : List Chars
  applied : Bool
  conflict : Bool
deriving DecidableEq, Repr

/-- Modelled from the spec §3: an ordered sequence of Differences sharing one
contiguous source/destination range, with declared header ranges. -/
structure Hunk where
  sourceStart : Nat
  sourceCount : Nat
  destStart : Nat
  destCount : Nat
  functionName : Option Chars
  kind : HunkType
  diffs : List Difference
deriving DecidableEq, Repr

/-- Modelled from the spec §3: one file's ordered sequence of Hunks plus
paths, timestamps, revisions and the blended flag. -/
structure FilePatch where
  source : Chars
  destination : Chars
  sourceTimestamp : Option Chars
  destTimestamp : Option Chars
  sourceRevision : Option Chars
  destRevision : Option Chars
  hunks : List Hunk
  blended : Bool
deriving DecidableEq, Repr

/-- Modelled from the spec §3: ordered FilePatches plus format/generator. -/
structure PatchSet where
  files : List FilePatch
  format : DiffFormat
  generator : DiffGenerator
deriving DecidableEq, Repr

/-- Error kinds of §7. -/
inductive RError
  | parseError
  | indexError
  | stateError
  | contentMismatchError
deriving DecidableEq, Repr

/-! ## List helpers (own definitions, to control the simp set) -/

/-- Concat-map, used for flattening per-hunk and per-file line lists. -/
def catMap (f : α → List β) : List α → List β
  | [] => []
  | a :: l => f a ++ catMap f l

/-! ## Decimal numerals over `Chars` -/

def isDig (c : Char) : Bool := decide ('0' ≤ c) && decide (c ≤ '9')

def digitChar10 : Nat → Char
  | 0 => '0'
  | 1 => '1'
  | 2 => '2'
  | 3 => '3'
  | 4 => '4'
  | 5 => '5'
  | 6 => '6'
  | 7 => '7'
  | 8 => '8'
  | _ => '9'

def charVal (c : Char) : Nat := c.toNat - 48

/-- Little-endian decimal digits of `n`, with fuel (`fuel > n` suffices). -/
def toDigitsRevF : Nat → Nat → List Nat
  | 0, _ => []
  | fuel + 1, n => if n < 10 then [n] else n % 10 :: toDigitsRevF fuel (n / 10)

/-- Decimal rendering of a natural number. -/
def printNat (n : Nat) : Chars := ((toDigitsRevF (n + 1) n).reverse).map digitChar10

def digitsVal (ds : Chars) : Nat := ds.foldl (fun a c => 10 * a + charVal c) 0

/-- Parse a leading run of decimal digits (at least one) from `cs`. -/
def parseNatPre (cs : Chars) : Option (Nat × Chars) :=
  match cs.takeWhile isDig with
  | [] => none
  | ds => some (digitsVal ds, cs.dropWhile isDig)

/-! ## Line splitting and joining -/

/-- Split on every newline; always returns at least one (possibly empty) piece. -/
def splitNl : Chars → List Chars
  | [] => [[]]
  | c :: rest =>
    if c = '\n' then [] :: splitNl rest
    else
      match splitNl rest with
      | [] => [[c]]
      | l :: ls => (c :: l) :: ls

/-- The lines of a text; a trailing newline does not produce a final empty line. -/
def splitLines (cs : Chars) : List Chars :=
  let ls := splitNl cs
  if ls.getLast? = some [] then ls.dropLast else ls

/-- Join lines, terminating every line with a newline. -/
def unlines : List Chars → Chars
  | [] => []
  | l :: ls => l ++ '\n' :: unlines ls

/-! ## Header parsing (modelled from the spec §4.1, unified dialect) -/

/-- Split at the first tab: the part before it and, when a tab is present,
the suffix after it (the tab-delimited timestamp of §4.1 step 2). -/
def splitTab : Chars → Chars × Option Chars
  | [] => ([], none)
  | c :: rest =>
    if c = '\t' then ([], some rest)
    else ((c :: (splitTab rest).1, (splitTab rest).2))

def parseSrcHeader : Chars → Option (Chars × Option Chars)
  | '-' :: '-' :: '-' :: ' ' :: rest => some (splitTab rest)
  | _ => none

def parseDstHeader : Chars → Option (Chars × Option Chars)
  | '+' :: '+' :: '+' :: ' ' :: rest => some (splitTab rest)
  | _ => none

def isHunkStart : Chars → Bool
  | c :: d :: _ => decide (c = '@') && decide (d = '@')
  | _ => false

/-- An omitted count defaults to 1 (spec §4.1 step 3). -/
def parseCountOpt : Chars → Option (Nat × Chars)
  | [] => some (1, [])
  | c :: r => if c = ',' then parseNatPre r else some (1, c :: r)

def parseFnPart : Chars → Option (Option Chars)
  | [] => some none
  | c :: f => if c = ' ' then some (some f) else none

/-- Parse an `@@ -s,c +s,c @@ [name]` hunk header line. -/
def parseHunkHeader (l : Chars) : Option (Nat × Nat × Nat × Nat × Option Chars) :=
  match l with
  | '@' :: '@' :: ' ' :: '-' :: r0 =>
    match parseNatPre r0 with
    | none => none
    | some (ss, r1) =>
      match parseCountOpt r1 with
      | none => none
      | some (sc, r2) =>
        match r2 with
        | ' ' :: '+' :: r3 =>
          match parseNatPre r3 with
          | none => none
          | some (ds, r4) =>
            match parseCountOpt r4 with
            | none => none
            | some (dc, r5) =>
              match r5 with
              | ' ' :: '@' :: '@' :: r6 =>
                match parseFnPart r6 with
                | none => none
                | some fn => some (ss, sc, ds, dc, fn)
              | _ => none
        | _ => none
  | _ => none

/-! ## Hunk bodies: marked raw lines, tallies, run-length encoding -/

/-- Source-side tally of a marked line sequence (space and `-` lines). -/
def srcT : List (Char × Chars) → Nat
  | [] => 0
  | (m, _) :: r => (if m = ' ' ∨ m = '-' then 1 else 0) + srcT r

/-- Destination-side tally of a marked line sequence (space and `+` lines). -/
def dstT : List (Char × Chars) → Nat
  | [] => 0
  | (m, _) :: r => (if m = ' ' ∨ m = '+' then 1 else 0) + dstT r

/-- All markers are one of space, `-`, `+`. -/
def validRaw (raw : List (Char × Chars)) : Prop :=
  ∀ p ∈ raw, p.1 = ' ' ∨ p.1 = '-' ∨ p.1 = '+'

/-- One step of run-length encoding (spec §4.1 step 4): consecutive
same-type lines merge, and a delete run directly followed by an insert run
collapses into a single Change difference. -/
def rleStep (m : Char) (s : Chars) (acc : List Difference) : List Difference :=
  match m, acc with
  | ' ', [] => [⟨.unchanged, [s], [s], false, false⟩]
  | ' ', d :: t =>
    match d.type with
    | .unchanged => ⟨.unchanged, s :: d.sourceLines, s :: d.destLines, false, false⟩ :: t
    | _ => ⟨.unchanged, [s], [s], false, false⟩ :: d :: t
  | '-', [] => [⟨.delete, [s], [], false, false⟩]
  | '-', d :: t =>
    match d.type with
    | .delete => ⟨.delete, s :: d.sourceLines, [], false, false⟩ :: t
    | .insert => ⟨.change, [s], d.destLines, false, false⟩ :: t
    | .change => ⟨.change, s :: d.sourceLines, d.destLines, false, false⟩ :: t
    | .unchanged => ⟨.delete, [s], [], false, false⟩ :: d :: t
  | '+', [] => [⟨.insert, [], [s], false, false⟩]
  | '+', d :: t =>
    match d.type with
    | .insert => ⟨.insert, [], s :: d.destLines, false, false⟩ :: t
    | _ => ⟨.insert, [], [s], false, false⟩ :: d :: t
  | _, acc => ⟨.unchanged, [s], [s], false, false⟩ :: acc

/-- Run-length encode a marked line sequence into Differences. -/
def rle : List (Char × Chars) → List Difference
  | [] => []
  | (m, s) :: r => rleStep m s (rle r)

/-- The marked raw lines a Difference stands for. -/
def diffRaw (d : Difference) : List (Char × Chars) :=
  match d.type with
  | .unchanged => d.sourceLines.map fun s => (' ', s)
  | .change => (d.sourceLines.map fun s => ('-', s)) ++ (d.destLines.map fun s => ('+', s))
  | .insert => d.destLines.map fun s => ('+', s)
  | .delete => d.sourceLines.map fun s => ('-', s)

def diffsRaw (ds : List Difference) : List (Char × Chars) := catMap diffRaw ds

/-- Turn marked raw lines back into text lines (marker prepended). -/
def rawLines (raw : List (Char × Chars)) : List Chars := raw.map fun p => p.1 :: p.2

/-- Modelled from the spec §4.1 step 4 and failure clause: consume exactly
the declared number of body lines, classifying each by its leading marker;
a missing marker, or hitting the end of input with lines still owed, is a
parse error (the line-count tally cannot silently mismatch). -/
def parseBody (sc dc : Nat) (ls : List Chars) :
    Except RError (List (Char × Chars) × List Chars) :=
  if sc = 0 ∧ dc = 0 then .ok ([], ls)
  else
    match ls with
    | [] => .error .parseError
    | [] :: _ => .error .parseError
    | (m :: s) :: rest =>
      if m = ' ' then
        if sc = 0 ∨ dc = 0 then .error .parseError
        else
          match parseBody (sc - 1) (dc - 1) rest with
          | .error e => .error e
          | .ok (r, rem) => .ok ((' ', s) :: r, rem)
      else if m = '-' then
        if sc = 0 then .error .parseError
        else
          match parseBody (sc - 1) dc rest with
          | .error e => .error e
          | .ok (r, rem) => .ok (('-', s) :: r, rem)
      else if m = '+' then
        if dc = 0 then .error .parseError
        else
          match parseBody sc (dc - 1) rest with
          | .error e => .error e
          | .ok (r, rem) => .ok (('+', s) :: r, rem)
      else .error .parseError

/-- Modelled from the spec §4.1 step 3: split a file block at `@@` headers;
a line that opens like a hunk header but does not parse is an error. -/
def parseHunks : Nat → List Chars → Except RError (List Hunk × List Chars)
  | 0, _ => .error .parseError
  | _ + 1, [] => .ok ([], [])
  | fuel + 1, l :: rest =>
    if isHunkStart l then
      match parseHunkHeader l with
      | none => .error .parseError
      | some (ss, sc, ds, dc, fn) =>
        match parseBody sc dc rest with
        | .error e => .error e
        | .ok (raw, rem) =>
          match parseHunks fuel rem with
          | .error e => .error e
          | .ok (hs, rem2) => .ok (⟨ss, sc, ds, dc, fn, .normal, rle raw⟩ :: hs, rem2)
    else .ok ([], l :: rest)

/-- A line that opens a recognized structural element. -/
def isStructural (l : Chars) : Bool :=
  (parseSrcHeader l).isSome || (parseDstHeader l).isSome || isHunkStart l

/-- Modelled from the spec §4.1 step 2: split into per-file blocks at
`---`/`+++` header pairs; a `---` line not followed by a `+++` line is a
malformed header pair and a parse error. -/
def parseFiles : Nat → List Chars → Except RError (List FilePatch)
  | 0, _ => .error .parseError
  | _ + 1, [] => .ok []
  | fuel + 1, l :: rest =>
    match parseSrcHeader l with
    | none => .error .parseError
    | some (src, sts) =>
      match rest with
      | [] => .error .parseError
      | l2 :: rest2 =>
        match parseDstHeader l2 with
        | none => .error .parseError
        | some (dst, dts) =>
          match parseHunks (rest2.length + 1) rest2 with
          | .error e => .error e
          | .ok (hs, rem) =>
            match parseFiles fuel rem with
            | .error e => .error e
            | .ok fps => .ok (⟨src, dst, sts, dts, none, none, hs, false⟩ :: fps)

/-- Best-effort tolerance for leading banners (`Index:`, `diff -u`, ...):
lines before the first recognizable structural line are skipped (spec §4.1
step 1: detection is heuristic; unrecognized input parses as best it can). -/
def skipJunk (ls : List Chars) : List Chars := ls.dropWhile fun l => !isStructural l

/-- Modelled from the spec §4.1: the parser, for the unified dialect the
claims exercise.  Produces a PatchSet or a parse error. -/
def parseDiff (cs : Chars) : Except RError PatchSet :=
  let ls := skipJunk (splitLines cs)
  match parseFiles (ls.length + 1) ls with
  | .error e => .error e
  | .ok fps => .ok ⟨fps, if fps.isEmpty then .unknown else .unified, .unknown⟩

/-! ## Serializer (modelled from the spec §4.4) -/

def tsPart : Option Chars → Chars
  | none => []
  | some t => '\t' :: t

def fnPart : Option Chars → Chars
  | none => []
  | some f => ' ' :: f

def hunkHeaderLine (h : Hunk) : Chars :=
  '@' :: '@' :: ' ' :: '-' ::
    (printNat h.sourceStart ++ ',' :: printNat h.sourceCount ++
      ' ' :: '+' :: (printNat h.destStart ++ ',' :: printNat h.destCount ++
        ' ' :: '@' :: '@' :: fnPart h.functionName))

/-- Emit one hunk; hunks of kind AddedByBlend are skipped entirely. -/
def emitHunk (h : Hunk) : List Chars :=
  match h.kind with
  | .addedByBlend => []
  | .normal => hunkHeaderLine h :: rawLines (diffsRaw h.diffs)

def emitHunks (hs : List Hunk) : List Chars := catMap emitHunk hs

def emitFile (fp : FilePatch) : List Chars :=
  ('-' :: '-' :: '-' :: ' ' :: (fp.source ++ tsPart fp.sourceTimestamp)) ::
    ('+' :: '+' :: '+' :: ' ' :: (fp.destination ++ tsPart fp.destTimestamp)) ::
      emitHunks fp.hunks

def psLines (ps : PatchSet) : List Chars := catMap emitFile ps.files

/-- Modelled from the spec §4.4: render a PatchSet to unified-diff text. -/
def serializeDiff (ps : PatchSet) : Chars := unlines (psLines ps)

/-! ## Read accessors (modelled from rcompare.h: neutral values on a null
handle or an out-of-range index) -/

def fileAt (h : Option PatchSet) (fi : Nat) : Option FilePatch :=
  h.bind fun ps => ps.files[fi]?

def hunkAt (h : Option PatchSet) (fi hi : Nat) : Option Hunk :=
  (fileAt h fi).bind fun fp => fp.hunks[hi]?

def diffAt (h : Option PatchSet) (fi hi di : Nat) : Option Difference :=
  (hunkAt h fi hi).bind fun hk => hk.diffs[di]?

def DiffFormat.code : DiffFormat → Nat
  | .unknown => 0
  | .unified => 1
  | .context => 2
  | .normal => 3
  | .ed => 4
  | .rcs => 5

def DiffGenerator.code : DiffGenerator → Nat
  | .unknown => 0
  | .diff => 1
  | .cvs => 2
  | .perforce => 3
  | .subversion => 4

def DifferenceType.code : DifferenceType → Nat
  | .unchanged => 0
  | .change => 1
  | .insert => 2
  | .delete => 3

def HunkType.code : HunkType → Nat
  | .normal => 0
  | .addedByBlend => 1

/-! Line numbers as derived state (spec §9 design note; §4.3 offset walk):
walking all Differences in order, each already-applied difference
contributes its destination length to a running offset while unapplied
differences contribute their pre-apply source-based length. -/

def stepOff (off : Int) (d : Difference) : Int :=
  if d.applied then off + (d.destLines.length : Int) - (d.sourceLines.length : Int) else off

def diffNosDiffs (srcPos : Nat) (off : Int) : List Difference → List (Nat × Nat)
  | [] => []
  | d :: t =>
    (srcPos, ((srcPos : Int) + off).toNat) ::
      diffNosDiffs (srcPos + d.sourceLines.length) (stepOff off d) t

def hunkOff (off : Int) : List Difference → Int
  | [] => off
  | d :: t => hunkOff (stepOff off d) t

def diffNosHunks (off : Int) : List Hunk → List (List (Nat × Nat))
  | [] => []
  | h :: t => diffNosDiffs h.sourceStart off h.diffs :: diffNosHunks (hunkOff off h.diffs) t

/-- Per hunk and per difference, the recorded (source, destination) line
numbers under the current mix of applied and unapplied differences. -/
def fpLineNos (fp : FilePatch) : List (List (Nat × Nat)) := diffNosHunks 0 fp.hunks

def lineNoAt (h : Option PatchSet) (fi hi di : Nat) : Option (Nat × Nat) :=
  (((fileAt h fi).map fpLineNos).bind fun l => l[hi]?).bind fun l => l[di]?

def rcompare_patchset_file_count (h : Option PatchSet) : Nat :=
  (h.map fun ps => ps.files.length).getD 0

def rcompare_patchset_format (h : Option PatchSet) : Nat :=
  (h.map fun ps => ps.format.code).getD 0

def rcompare_patchset_generator (h : Option PatchSet) : Nat :=
  (h.map fun ps => ps.generator.code).getD 0

def rcompare_filepatch_source (h : Option PatchSet) (fi : Nat) : Option Chars :=
  (fileAt h fi).map fun fp => fp.source

def rcompare_filepatch_destination (h : Option PatchSet) (fi : Nat) : Option Chars :=
  (fileAt h fi).map fun fp => fp.destination

def rcompare_filepatch_source_timestamp (h : Option PatchSet) (fi : Nat) : Option Chars :=
  (fileAt h fi).bind fun fp => fp.sourceTimestamp

def rcompare_filepatch_dest_timestamp (h : Option PatchSet) (fi : Nat) : Option Chars :=
  (fileAt h fi).bind fun fp => fp.destTimestamp

def rcompare_filepatch_source_revision (h : Option PatchSet) (fi : Nat) : Option Chars :=
  (fileAt h fi).bind fun fp => fp.sourceRevision

def rcompare_filepatch_dest_revision (h : Option PatchSet) (fi : Nat) : Option Chars :=
  (fileAt h fi).bind fun fp => fp.destRevision

def rcompare_filepatch_hunk_count (h : Option PatchSet) (fi : Nat) : Nat :=
  ((fileAt h fi).map fun fp => fp.hunks.length).getD 0

def rcompare_filepatch_is_blended (h : Option PatchSet) (fi : Nat) : Nat :=
  ((fileAt h fi).map fun fp => if fp.blended then 1 else 0).getD 0

def rcompare_hunk_source_start (h : Option PatchSet) (fi hi : Nat) : Nat :=
  ((hunkAt h fi hi).map fun hk => hk.sourceStart).getD 0

def rcompare_hunk_source_count (h : Option PatchSet) (fi hi : Nat) : Nat :=
  ((hunkAt h fi hi).map fun hk => hk.sourceCount).getD 0

def rcompare_hunk_dest_start (h : Option PatchSet) (fi hi : Nat) : Nat :=
  ((hunkAt h fi hi).map fun hk => hk.destStart).getD 0

def rcompare_hunk_dest_count (h : Option PatchSet) (fi hi : Nat) : Nat :=
  ((hunkAt h fi hi).map fun hk => hk.destCount).getD 0

def rcompare_hunk_function_name (h : Option PatchSet) (fi hi : Nat) : Option Chars :=
  (hunkAt h fi hi).bind fun hk => hk.functionName

def rcompare_hunk_diff_count (h : Option PatchSet) (fi hi : Nat) : Nat :=
  ((hunkAt h fi hi).map fun hk => hk.diffs.length).getD 0

def rcompare_hunk_type (h : Option PatchSet) (fi hi : Nat) : Nat :=
  ((hunkAt h fi hi).map fun hk => hk.kind.code).getD 0

def rcompare_diff_type (h : Option PatchSet) (fi hi di : Nat) : Nat :=
  ((diffAt h fi hi di).map fun d => d.type.code).getD 0

def rcompare_diff_source_line_no (h : Option PatchSet) (fi hi di : Nat) : Nat :=
  ((lineNoAt h fi hi di).map fun p => p.1).getD 0

def rcompare_diff_dest_line_no (h : Option PatchSet) (fi hi di : Nat) : Nat :=
  ((lineNoAt h fi hi di).map fun p => p.2).getD 0

def rcompare_diff_source_line_count (h : Option PatchSet) (fi hi di : Nat) : Nat :=
  ((diffAt h fi hi di).map fun d => d.sourceLines.length).getD 0

def rcompare_diff_dest_line_count (h : Option PatchSet) (fi hi di : Nat) : Nat :=
  ((diffAt h fi hi di).map fun d => d.destLines.length).getD 0

def rcompare_diff_source_line_at (h : Option PatchSet) (fi hi di li : Nat) : Option Chars :=
  (diffAt h fi hi di).bind fun d => d.sourceLines[li]?

def rcompare_diff_dest_line_at (h : Option PatchSet) (fi hi di li : Nat) : Option Chars :=
  (diffAt h fi hi di).bind fun d => d.destLines[li]?

def rcompare_diff_applied (h : Option PatchSet) (fi hi di : Nat) : Nat :=
  ((diffAt h fi hi di).map fun d => if d.applied then 1 else 0).getD 0

def rcompare_diff_conflict (h : Option PatchSet) (fi hi di : Nat) : Nat :=
  ((diffAt h fi hi di).map fun d => if d.conflict then 1 else 0).getD 0

/-! ## Apply engine (modelled from the spec §4.3) -/

def nonUnchanged (d : Difference) : Bool :=
  match d.type with
  | .unchanged => false
  | _ => true

/-- The flat-addressable Differences of one hunk (Unchanged skipped). -/
def hunkFlat (h : Hunk) : List Difference := h.diffs.filter nonUnchanged

/-- The flat-addressable Differences of a FilePatch, in hunk order then
in-hunk order (spec §4.3). -/
def flatDiffsFP (fp : FilePatch) : List Difference := catMap hunkFlat fp.hunks

def flatCountFP (fp : FilePatch) : Nat := (flatDiffsFP fp).length

def flatGetFP (fp : FilePatch) (i : Nat) : Option Difference := (flatDiffsFP fp)[i]?

def flatCountDiffs (ds : List Difference) : Nat := (ds.filter nonUnchanged).length

/-- Map an indexed function over the flat-addressable Differences. -/
def mapFlatDiffs (f : Nat → Difference → Difference) : Nat → List Difference → List Difference
  | _, [] => []
  | i, d :: t =>
    if nonUnchanged d then f i d :: mapFlatDiffs f (i + 1) t
    else d :: mapFlatDiffs f i t

def mapFlatHunks (f : Nat → Difference → Difference) : Nat → List Hunk → List Hunk
  | _, [] => []
  | i, h :: t =>
    { h with diffs := mapFlatDiffs f i h.diffs } :: mapFlatHunks f (i + flatCountDiffs h.diffs) t

def mapFlatFP (f : Nat → Difference → Difference) (fp : FilePatch) : FilePatch :=
  { fp with hunks := mapFlatHunks f 0 fp.hunks }

def setAppliedAt (i : Nat) (b : Bool) : Nat → Difference → Difference :=
  fun j d => if j = i then { d with applied := b } else d

/-- Modelled from the spec §4.3: mark the Difference at a flat index
applied; fails, leaving the state untouched, when the index is out of
range, the Difference is already applied, or it is in conflict. -/
def applyDifferenceFP (fp : FilePatch) (i : Nat) : Except RError FilePatch :=
  match flatGetFP fp i with
  | none => .error .indexError
  | some d =>
    if d.applied then .error .stateError
    else if d.conflict then .error .stateError
    else .ok (mapFlatFP (setAppliedAt i true) fp)

/-- Modelled from the spec §4.3: inverse of `applyDifferenceFP`; errors
mirror apply with already-unapplied in place of already-applied. -/
def unapplyDifferenceFP (fp : FilePatch) (i : Nat) : Except RError FilePatch :=
  match flatGetFP fp i with
  | none => .error .indexError
  | some d =>
    if !d.applied then .error .stateError
    else if d.conflict then .error .stateError
    else .ok (mapFlatFP (setAppliedAt i false) fp)

/-- Modelled from the spec §4.3: bulk operations run the single-difference
operation in ascending flat order; on a step failure processing stops and
already-toggled Differences remain toggled. -/
def applyAllGo (step : FilePatch → Nat → Except RError FilePatch) :
    Nat → Nat → FilePatch → Option RError × FilePatch
  | _, 0, fp => (none, fp)
  | i, fuel + 1, fp =>
    match step fp i with
    | .error e => (some e, fp)
    | .ok fp2 => applyAllGo step (i + 1) fuel fp2

def applyAllFP (fp : FilePatch) : Option RError × FilePatch :=
  applyAllGo applyDifferenceFP 0 (flatCountFP fp) fp

def unapplyAllFP (fp : FilePatch) : Option RError × FilePatch :=
  applyAllGo unapplyDifferenceFP 0 (flatCountFP fp) fp

def noConflictsFP (fp : FilePatch) : Bool := (flatDiffsFP fp).all fun d => !d.conflict

def allUnappliedFP (fp : FilePatch) : Bool := (flatDiffsFP fp).all fun d => !d.applied

/-! ## Blend engine (modelled from the spec §4.2) -/

/-- A context hunk of kind AddedByBlend covering original lines
`pos .. pos+len-1`, its ranges computed from the surrounding hunks'
destination coordinates. -/
def gapHunk (pos len : Nat) (lines : List Chars) : Hunk :=
  ⟨pos, len, pos, len, none, .addedByBlend,
    [⟨.unchanged, (lines.drop (pos - 1)).take len, (lines.drop (pos - 1)).take len,
      false, false⟩]⟩

/-- Modelled from the spec §4.2: walk the hunks by destination range,
filling each gap with an AddedByBlend context hunk; a hunk overlapping the
already-covered prefix or reaching past the content is a content mismatch. -/
def blendGo (total : Nat) (lines : List Chars) : Nat → List Hunk → Except RError (List Hunk)
  | pos, [] =>
    if pos = total + 1 then .ok []
    else if pos ≤ total then .ok [gapHunk pos (total + 1 - pos) lines]
    else .error .contentMismatchError
  | pos, h :: t =>
    if h.destStart < pos then .error .contentMismatchError
    else if total + 1 < h.destStart + h.destCount then .error .contentMismatchError
    else
      match blendGo total lines (h.destStart + h.destCount) t with
      | .error e => .error e
      | .ok hs =>
        if pos < h.destStart then .ok (gapHunk pos (h.destStart - pos) lines :: h :: hs)
        else .ok (h :: hs)

/-- Modelled from the spec §4.2: blend original file content into a
FilePatch; blending an already-blended FilePatch is a state error. -/
def blendFP (fp : FilePatch) (content : Chars) : Except RError FilePatch :=
  if fp.blended then .error .stateError
  else
    match blendGo (splitLines content).length (splitLines content) 1 fp.hunks with
    | .error e => .error e
    | .ok hs => .ok { fp with hunks := hs, blended := true }

/-- Contiguous, non-overlapping cover of `[pos, total]` by the hunks'
destination ranges. -/
def coversFromB (total : Nat) : Nat → List Hunk → Bool
  | pos, [] => pos == total + 1
  | pos, h :: t => (h.destStart == pos) && coversFromB total (h.destStart + h.destCount) t

/-! ## PatchSet-level and FFI-level wrappers (modelled from rcompare.h) -/

def updateFile (ps : PatchSet) (fi : Nat) (fp : FilePatch) : PatchSet :=
  { ps with files := ps.files.set fi fp }

def applyDifferencePS (ps : PatchSet) (fi i : Nat) : Except RError PatchSet :=
  match ps.files[fi]? with
  | none => .error .indexError
  | some fp =>
    match applyDifferenceFP fp i with
    | .error e => .error e
    | .ok fp2 => .ok (updateFile ps fi fp2)

def unapplyDifferencePS (ps : PatchSet) (fi i : Nat) : Except RError PatchSet :=
  match ps.files[fi]? with
  | none => .error .indexError
  | some fp =>
    match unapplyDifferenceFP fp i with
    | .error e => .error e
    | .ok fp2 => .ok (updateFile ps fi fp2)

/-- `rcompare_parse_diff`: a null input pointer or a null out parameter
yields -1 and no handle is produced (note in rcompare.h lines 110-112). -/
def rcompare_parse_diff (input : Option Chars) (len : Nat) (outNull : Bool) :
    Int × Option PatchSet :=
  match input, outNull with
  | none, _ => (-1, none)
  | some _, true => (-1, none)
  | some cs, false =>
    match parseDiff (cs.take len) with
    | .error _ => (-1, none)
    | .ok ps => (0, some ps)

def rcompare_blend_file (h : Option PatchSet) (fi : Nat) (content : Chars) :
    Int × Option PatchSet :=
  match h with
  | none => (-1, none)
  | some ps =>
    match ps.files[fi]? with
    | none => (-1, some ps)
    | some fp =>
      match blendFP fp content with
      | .error _ => (-1, some ps)
      | .ok fp2 => (0, some (updateFile ps fi fp2))

def rcompare_apply_difference (h : Option PatchSet) (fi i : Nat) : Int × Option PatchSet :=
  match h with
  | none => (-1, none)
  | some ps =>
    match applyDifferencePS ps fi i with
    | .error _ => (-1, some ps)
    | .ok ps2 => (0, some ps2)

def rcompare_unapply_difference (h : Option PatchSet) (fi i : Nat) : Int × Option PatchSet :=
  match h with
  | none => (-1, none)
  | some ps =>
    match unapplyDifferencePS ps fi i with
    | .error _ => (-1, some ps)
    | .ok ps2 => (0, some ps2)

def rcompare_apply_all (h : Option PatchSet) (fi : Nat) : Int × Option PatchSet :=
  match h with
  | none => (-1, none)
  | some ps =>
    match ps.files[fi]? with
    | none => (-1, some ps)
    | some fp =>
      match applyAllFP fp with
      | (none, fp2) => (0, some (updateFile ps fi fp2))
      | (some _, fp2) => (-1, some (updateFile ps fi fp2))

def rcompare_unapply_all (h : Option PatchSet) (fi : Nat) : Int × Option PatchSet :=
  match h with
  | none => (-1, none)
  | some ps =>
    match ps.files[fi]? with
    | none => (-1, some ps)
    | some fp =>
      match unapplyAllFP fp with
      | (none, fp2) => (0, some (updateFile ps fi fp2))
      | (some _, fp2) => (-1, some (updateFile ps fi fp2))

def rcompare_serialize_diff (h : Option PatchSet) : Option Chars :=
  h.map serializeDiff

/-- A PatchSet with only the Normal hunks kept (the hunks the serializer
emits). -/
def filterNormalPS (ps : PatchSet) : PatchSet :=
  { ps with files := ps.files.map fun fp =>
      { fp with hunks := fp.hunks.filter fun h => h.kind == HunkType.normal } }

/-! ## Well-formedness invariants of freshly parsed PatchSets -/

def nlFree (l : Chars) : Prop := '\n' ∉ l

/-- Invariants a parsed hunk satisfies: Normal kind, declared counts equal
to the body tallies, run-length-encoded normal form, newline-free content. -/
def wfHunk (h : Hunk) : Prop :=
  h.kind = .normal ∧
  h.sourceCount = srcT (diffsRaw h.diffs) ∧
  h.destCount = dstT (diffsRaw h.diffs) ∧
  rle (diffsRaw h.diffs) = h.diffs ∧
  (∀ p ∈ diffsRaw h.diffs, nlFree p.2) ∧
  (∀ f, h.functionName = some f → nlFree f)

/-- Invariants a parsed FilePatch satisfies. -/
def wfFile (fp : FilePatch) : Prop :=
  nlFree fp.source ∧ '\t' ∉ fp.source ∧
  nlFree fp.destination ∧ '\t' ∉ fp.destination ∧
  (∀ t, fp.sourceTimestamp = some t → nlFree t) ∧
  (∀ t, fp.destTimestamp = some t → nlFree t) ∧
  fp.sourceRevision = none ∧ fp.destRevision = none ∧
  fp.blended = false ∧
  (∀ h ∈ fp.hunks, wfHunk h)

/-- Invariants a parsed PatchSet satisfies. -/
def wfPS (ps : PatchSet) : Prop :=
  (∀ fp ∈ ps.files, wfFile fp) ∧
  ps.format = (if ps.files.isEmpty then DiffFormat.unknown else DiffFormat.unified) ∧
  ps.generator = .unknown

/-- Indexed map over a plain list, with a starting index; relates
`mapFlatFP` to the flattened difference list. -/
def mapIdxFrom (f : Nat → α → α) : Nat → List α → List α
  | _, [] => []
  | i, a :: t => f i a :: mapIdxFrom f (i + 1) t

/-- The applied flag of the flat-index-`i` Difference (false when out of range). -/
def appliedAtB (fp : FilePatch) (i : Nat) : Bool :=
  ((flatGetFP fp i).map fun d => d.applied).getD false

/-- The conflict flag of the flat-index-`i` Difference (false when out of range). -/
def conflictAtB (fp : FilePatch) (i : Nat) : Bool :=
  ((flatGetFP fp i).map fun d => d.conflict).getD false

/-! ## Concrete fixtures used by witnesses -/

/-- A two-file unified diff exercising timestamps, function names, change /
insert / delete runs and omitted counts. -/
def inpC1 : Chars :=
  ("--- a/x.txt\t2024\n+++ b/x.txt\t2025\n@@ -1,3 +1,4 @@ fn one\n ctx1\n-delA\n+addB\n+addC\n ctx2\n@@ -10,2 +11,1 @@\n-gone\n keep\n--- a/y\n+++ b/y\n@@ -1 +1 @@\n-u\n+v\n").toList

/-- The PatchSet `inpC1` parses to. -/
def psC1 : PatchSet :=
  match parseDiff inpC1 with
  | .ok ps => ps
  | .error _ => ⟨[], .unknown, .unknown⟩

/-- The FilePatch of the concrete scenario of §8 of the spec. -/
def fpC8f0 : FilePatch :=
  ⟨"a/f".toList, "b/f".toList, none, none, none, none,
    [⟨1, 2, 1, 2, none, .normal,
      [⟨.change, ["old".toList], ["new".toList], false, false⟩,
       ⟨.unchanged, ["unchanged".toList], ["unchanged".toList], false, false⟩]⟩], false⟩

/-- The concrete scenario input of §8 of the spec. -/
def inpC8 : Chars := ("--- a/f\n+++ b/f\n@@ -1,2 +1,2 @@\n-old\n+new\n unchanged\n").toList

/-- The single hunk of `fpC8f0`. -/
def hkC8 : Hunk :=
  ⟨1, 2, 1, 2, none, .normal,
    [⟨.change, ["old".toList], ["new".toList], false, false⟩,
     ⟨.unchanged, ["unchanged".toList], ["unchanged".toList], false, false⟩]⟩

/-- The Change Difference of `fpC8f0`. -/
def dC8 : Difference := ⟨.change, ["old".toList], ["new".toList], false, false⟩

def psC8 : PatchSet := ⟨[fpC8f0], .unified, .unknown⟩

/-- `psC8` after applying flat difference 0 of file 0. -/
def psC8app : PatchSet := (rcompare_apply_difference (some psC8) 0 0).2.getD psC8

/-- `fpC8f0` after applying flat difference 0. -/
def fpC8f0app : FilePatch :=
  match applyDifferenceFP fpC8f0 0 with
  | .ok fp => fp
  | .error _ => fpC8f0

/-- A FilePatch whose applied flags are true, false, true: a state on which
apply-all stops at its first step and unapply-all stops before the last
Difference, leaving it toggled. -/
def fpC2ce : FilePatch :=
  ⟨['f'], ['f'], none, none, none, none,
    [⟨1, 0, 1, 3, none, .normal,
      [⟨.insert, [], [['a']], true, false⟩,
       ⟨.insert, [], [['b']], false, false⟩,
       ⟨.insert, [], [['c']], true, false⟩]⟩], false⟩

/-- The blend example shipped as examples/patch_apply.c. -/
def inpBlend : Chars :=
  ("--- a/config.txt\n+++ b/config.txt\n@@ -3,3 +3,3 @@\n setting2=value2\n-setting3=old_value\n+setting3=new_value\n setting4=value4\n").toList

def origBlend : Chars :=
  ("setting1=value1\nsetting2=value2\nsetting3=old_value\nsetting4=value4\nsetting5=value5\n").toList

def psBlend : PatchSet :=
  match parseDiff inpBlend with
  | .ok ps => ps
  | .error _ => ⟨[], .unknown, .unknown⟩

def fpEmpty : FilePatch := ⟨[], [], none, none, none, none, [], false⟩

def fpBlend : FilePatch := (psBlend.files[0]?).getD fpEmpty

/-- `psBlend` after a successful blend of `origBlend` into file 0. -/
def psBlended : PatchSet := (rcompare_blend_file (some psBlend) 0 origBlend).2.getD psBlend

def fpBlended : FilePatch := (psBlended.files[0]?).getD fpEmpty

/-- The single hunk `inpBlend` parses to. -/
def hkBlend0 : Hunk :=
  ⟨3, 3, 3, 3, none, .normal,
    [⟨.unchanged, [("setting2=value2").toList], [("setting2=value2").toList], false, false⟩,
     ⟨.change, [("setting3=old_value").toList], [("setting3=new_value").toList],
       false, false⟩,
     ⟨.unchanged, [("setting4=value4").toList], [("setting4=value4").toList],
       false, false⟩]⟩

/-- Original content too short for `fpBlend`: a single line `x`. -/
def shortBlend : Chars := ('x' :: '\n' :: [])

/-- A minimal single-file diff text whose one hunk declares the counts
`sc`/`dc` over the marked body lines of `raw`: the family of inputs on
which a declared-count/tally mismatch is exercised. -/
def mismatchInput (ss sc ds dc : Nat) (raw : List (Char × Chars)) : Chars :=
  unlines (('-' :: '-' :: '-' :: ' ' :: 'a' :: []) ::
    ('+' :: '+' :: '+' :: ' ' :: 'b' :: []) ::
    hunkHeaderLine ⟨ss, sc, ds, dc, none, .normal, []⟩ :: rawLines raw)

/-! ## Theorems -/

/-! ### Basic list and digit lemmas -/

theorem catMap_append (f : α → List β) (l1 l2 : List α) :
    catMap f (l1 ++ l2) = catMap f l1 ++ catMap f l2 := by
  induction l1 with
  | nil => simp [catMap]
  | cons a t ih => simp [catMap, ih]

theorem takeWhile_all_append {p : α → Bool} {xs : List α} (ys : List α)
    (h : ∀ x ∈ xs, p x = true) : (xs ++ ys).takeWhile p = xs ++ ys.takeWhile p := by
  induction xs with
  | nil => simp
  | cons a t ih =>
    have ha : p a = true := h a (by simp)
    simp only [List.cons_append, List.takeWhile_cons, ha, if_true]
    rw [ih fun x hx => h x (by simp [hx])]

theorem dropWhile_all_append {p : α → Bool} {xs : List α} (ys : List α)
    (h : ∀ x ∈ xs, p x = true) : (xs ++ ys).dropWhile p = ys.dropWhile p := by
  induction xs with
  | nil => simp
  | cons a t ih =>
    have ha : p a = true := h a (by simp)
    simp only [List.cons_append, List.dropWhile_cons, ha, if_true]
    exact ih fun x hx => h x (by simp [hx])

theorem mem_dropWhile {p : α → Bool} {l : List α} {x : α}
    (h : x ∈ l.dropWhile p) : x ∈ l := by
  induction l with
  | nil => simp at h
  | cons a t ih =>
    rw [List.dropWhile_cons] at h
    by_cases hp : p a = true
    · simp only [hp, if_true] at h
      exact List.mem_cons_of_mem a (ih h)
    · simp only [hp, if_false] at h
      exact h

theorem isDig_digitChar10 {d : Nat} (h : d < 10) : isDig (digitChar10 d) = true := by
  interval_cases d <;> decide

theorem charVal_digitChar10 {d : Nat} (h : d < 10) : charVal (digitChar10 d) = d := by
  interval_cases d <;> decide

theorem toDigitsRevF_ne_nil {fuel n : Nat} (h : n < fuel) : toDigitsRevF fuel n ≠ [] := by
  cases fuel with
  | zero => omega
  | succ f =>
    by_cases h10 : n < 10 <;> simp [toDigitsRevF, h10]

theorem toDigitsRevF_lt10 {fuel n : Nat} (h : n < fuel) :
    ∀ d ∈ toDigitsRevF fuel n, d < 10 := by
  induction fuel generalizing n with
  | zero => omega
  | succ f ih =>
    by_cases h10 : n < 10
    · intro d hd
      simp only [toDigitsRevF, h10, if_true, List.mem_singleton] at hd
      omega
    · simp only [toDigitsRevF, h10, if_false, List.mem_cons]
      rintro d (rfl | hd)
      · exact Nat.mod_lt _ (by omega)
      · have hlt : n / 10 < f := by
          have := Nat.div_lt_self (by omega : 0 < n) (by omega : 1 < 10)
          omega
        exact ih hlt d hd

theorem printNat_ne_nil (n : Nat) : printNat n ≠ [] := by
  have h := toDigitsRevF_ne_nil (Nat.lt_succ_self n)
  simp only [printNat, ne_eq, List.map_eq_nil_iff, List.reverse_eq_nil_iff]
  exact h

theorem printNat_digits (n : Nat) : ∀ c ∈ printNat n, isDig c = true := by
  intro c hc
  simp only [printNat, List.mem_map, List.mem_reverse] at hc
  obtain ⟨d, hd, rfl⟩ := hc
  exact isDig_digitChar10 (toDigitsRevF_lt10 (Nat.lt_succ_self n) d hd)

theorem digitsVal_toDigitsRevF {fuel n : Nat} (h : n < fuel) :
    digitsVal (((toDigitsRevF fuel n).reverse).map digitChar10) = n := by
  induction fuel generalizing n with
  | zero => omega
  | succ f ih =>
    by_cases h10 : n < 10
    · simp [toDigitsRevF, h10, digitsVal, charVal_digitChar10 h10]
    · have hlt : n / 10 < f := by
        have := Nat.div_lt_self (by omega : 0 < n) (by omega : 1 < 10)
        omega
      have hmod : n % 10 < 10 := Nat.mod_lt _ (by omega)
      simp only [toDigitsRevF, h10, if_false, List.reverse_cons, List.map_append,
        List.map_cons, List.map_nil]
      unfold digitsVal
      rw [List.foldl_append]
      have := ih hlt
      unfold digitsVal at this
      rw [this]
      simp only [List.foldl_cons, List.foldl_nil, charVal_digitChar10 hmod]
      omega

theorem digitsVal_printNat (n : Nat) : digitsVal (printNat n) = n :=
  digitsVal_toDigitsRevF (Nat.lt_succ_self n)

theorem parseNatPre_print {c0 : Char} (n : Nat) (rest : Chars)
    (h : isDig c0 = false) :
    parseNatPre (printNat n ++ c0 :: rest) = some (n, c0 :: rest) := by
  have htake : (printNat n ++ c0 :: rest).takeWhile isDig
      = printNat n ++ (c0 :: rest).takeWhile isDig :=
    takeWhile_all_append _ (printNat_digits n)
  have hdrop : (printNat n ++ c0 :: rest).dropWhile isDig
      = (c0 :: rest).dropWhile isDig :=
    dropWhile_all_append _ (printNat_digits n)
  have htail : (c0 :: rest).takeWhile isDig = [] := by
    simp [List.takeWhile_cons, h]
  have htail2 : (c0 :: rest).dropWhile isDig = c0 :: rest := by
    simp [List.dropWhile_cons, h]
  unfold parseNatPre
  rw [htake, htail, List.append_nil, hdrop, htail2]
  have hne := printNat_ne_nil n
  cases hpn : printNat n with
  | nil => exact absurd hpn hne
  | cons a t =>
    show some (digitsVal (a :: t), c0 :: rest) = some (n, c0 :: rest)
    rw [← hpn, digitsVal_printNat n]

/-! ### splitTab lemmas -/

theorem splitTab_no_tab {p : Chars} (h : '\t' ∉ p) : splitTab p = (p, none) := by
  induction p with
  | nil => rfl
  | cons c t ih =>
    have hc : ¬(c = '\t') := fun hc => h (by simp [hc])
    have ht : '\t' ∉ t := fun hm => h (by simp [hm])
    simp [splitTab, hc, ih ht]

theorem splitTab_app {p : Chars} (t : Chars) (h : '\t' ∉ p) :
    splitTab (p ++ '\t' :: t) = (p, some t) := by
  induction p with
  | nil => simp [splitTab]
  | cons c r ih =>
    have hc : ¬(c = '\t') := fun hc => h (by simp [hc])
    have hr : '\t' ∉ r := fun hm => h (by simp [hm])
    simp [splitTab, hc, ih hr]

theorem splitTab_mem {cs p : Chars} {t : Option Chars} (h : splitTab cs = (p, t)) :
    (∀ c ∈ p, c ∈ cs) ∧ '\t' ∉ p ∧ (∀ s, t = some s → ∀ c ∈ s, c ∈ cs) := by
  induction cs generalizing p t with
  | nil =>
    simp only [splitTab, Prod.mk.injEq] at h
    obtain ⟨h1, h2⟩ := h
    subst h1
    subst h2
    simp
  | cons c r ih =>
    by_cases hc : c = '\t'
    · subst hc
      simp only [splitTab, if_true, Prod.mk.injEq] at h
      obtain ⟨h1, h2⟩ := h
      subst h1
      subst h2
      refine ⟨by simp, by simp, ?_⟩
      rintro s hs a ha
      injection hs with hs
      subst hs
      simp [ha]
    · simp only [splitTab, hc, if_false, Prod.mk.injEq] at h
      obtain ⟨h1, h2⟩ := h
      obtain ⟨ihm, ihtab, ihts⟩ := ih (rfl : splitTab r = ((splitTab r).1, (splitTab r).2))
      subst h1
      subst h2
      refine ⟨?_, ?_, ?_⟩
      · intro a ha
        rcases List.mem_cons.1 ha with rfl | ha
        · simp
        · exact List.mem_cons_of_mem _ (ihm a ha)
      · intro hmem
        rcases List.mem_cons.1 hmem with heq | hmem
        · exact hc heq.symm
        · exact ihtab hmem
      · intro s hs a ha
        exact List.mem_cons_of_mem _ (ihts s hs a ha)

/-! ### Line splitting lemmas -/

theorem splitNl_cons_line {l : Chars} (cs : Chars) (h : nlFree l) :
    splitNl (l ++ '\n' :: cs) = l :: splitNl cs := by
  induction l with
  | nil => simp [splitNl]
  | cons c r ih =>
    have hc : ¬(c = '\n') := fun hc => h (by simp [hc])
    have hr : nlFree r := fun hm => h (by simp [hm])
    rw [List.cons_append]
    show splitNl (c :: (r ++ '\n' :: cs)) = (c :: r) :: splitNl cs
    simp only [splitNl, hc, if_false, ih hr]

theorem splitNl_unlines {ls : List Chars} (h : ∀ l ∈ ls, nlFree l) :
    splitNl (unlines ls) = ls ++ [[]] := by
  induction ls with
  | nil => rfl
  | cons l t ih =>
    show splitNl (l ++ '\n' :: unlines t) = (l :: t) ++ [[]]
    rw [splitNl_cons_line _ (h l (by simp))]
    rw [ih fun x hx => h x (by simp [hx])]
    rfl

theorem splitLines_unlines {ls : List Chars} (h : ∀ l ∈ ls, nlFree l) :
    splitLines (unlines ls) = ls := by
  unfold splitLines
  rw [splitNl_unlines h]
  simp

theorem splitNl_nlFree (cs : Chars) : ∀ l ∈ splitNl cs, nlFree l := by
  induction cs with
  | nil =>
    intro l hl
    simp only [splitNl, List.mem_singleton] at hl
    subst hl
    intro hm
    simp at hm
  | cons c r ih =>
    by_cases hc : c = '\n'
    · subst hc
      intro l hl
      simp only [splitNl, if_true, List.mem_cons] at hl
      rcases hl with rfl | hl
      · intro hm
        simp at hm
      · exact ih l hl
    · intro l hl
      simp only [splitNl, hc, if_false] at hl
      cases hsp : splitNl r with
      | nil =>
        rw [hsp] at hl
        simp only [List.mem_singleton] at hl
        subst hl
        intro hm
        rcases List.mem_cons.1 hm with heq | hm2
        · exact hc heq.symm
        · simp at hm2
      | cons l0 ls0 =>
        rw [hsp] at hl
        rcases List.mem_cons.1 hl with rfl | hl2
        · intro hm
          rcases List.mem_cons.1 hm with heq | hm2
          · exact hc heq.symm
          · exact ih l0 (by rw [hsp]; simp) hm2
        · exact ih l (by rw [hsp]; simp [hl2])

theorem splitLines_nlFree (cs : Chars) : ∀ l ∈ splitLines cs, nlFree l := by
  intro l hl
  unfold splitLines at hl
  by_cases hlast : (splitNl cs).getLast? = some []
  · simp only [hlast, if_true] at hl
    exact splitNl_nlFree cs l (List.dropLast_subset _ hl)
  · simp only [hlast, if_false] at hl
    exact splitNl_nlFree cs l hl

/-! ### Run-length encoding inverts emission -/

theorem diffsRaw_cons (d : Difference) (t : List Difference) :
    diffsRaw (d :: t) = diffRaw d ++ diffsRaw t := rfl

theorem diffsRaw_rleStep {m : Char} (s : Chars) (acc : List Difference)
    (hm : m = ' ' ∨ m = '-' ∨ m = '+') :
    diffsRaw (rleStep m s acc) = (m, s) :: diffsRaw acc := by
  rcases hm with rfl | rfl | rfl
  · cases acc with
    | nil => rfl
    | cons d t =>
      obtain ⟨ty, sl, dl, ap, cf⟩ := d
      cases ty <;> simp [rleStep, diffsRaw, catMap, diffRaw]
  · cases acc with
    | nil => rfl
    | cons d t =>
      obtain ⟨ty, sl, dl, ap, cf⟩ := d
      cases ty <;> simp [rleStep, diffsRaw, catMap, diffRaw]
  · cases acc with
    | nil => rfl
    | cons d t =>
      obtain ⟨ty, sl, dl, ap, cf⟩ := d
      cases ty <;> simp [rleStep, diffsRaw, catMap, diffRaw]

theorem diffsRaw_rle {raw : List (Char × Chars)} (h : validRaw raw) :
    diffsRaw (rle raw) = raw := by
  induction raw with
  | nil => rfl
  | cons p r ih =>
    obtain ⟨m, s⟩ := p
    show diffsRaw (rleStep m s (rle r)) = (m, s) :: r
    rw [diffsRaw_rleStep s (rle r) (h (m, s) (by simp))]
    rw [ih fun q hq => h q (by simp [hq])]

theorem validRaw_diffRaw (d : Difference) : validRaw (diffRaw d) := by
  intro p hp
  obtain ⟨ty, sl, dl, ap, cf⟩ := d
  cases ty <;> simp only [diffRaw, List.mem_append, List.mem_map] at hp
  · obtain ⟨s, hs, rfl⟩ := hp
    simp
  · rcases hp with ⟨s, hs, rfl⟩ | ⟨s, hs, rfl⟩ <;> simp
  · obtain ⟨s, hs, rfl⟩ := hp
    simp
  · obtain ⟨s, hs, rfl⟩ := hp
    simp

theorem validRaw_diffsRaw (ds : List Difference) : validRaw (diffsRaw ds) := by
  induction ds with
  | nil => intro p hp; simp [diffsRaw, catMap] at hp
  | cons d t ih =>
    intro p hp
    rw [diffsRaw_cons] at hp
    rcases List.mem_append.1 hp with hp | hp
    · exact validRaw_diffRaw d p hp
    · exact ih p hp

/-! ### parseBody: printing and soundness -/

theorem rawLines_cons (m : Char) (s : Chars) (r : List (Char × Chars)) :
    rawLines ((m, s) :: r) = (m :: s) :: rawLines r := rfl

theorem parseBody_print (raw : List (Char × Chars)) (rest : List Chars)
    (h : validRaw raw) :
    parseBody (srcT raw) (dstT raw) (rawLines raw ++ rest) = .ok (raw, rest) := by
  induction raw with
  | nil =>
    show parseBody 0 0 ([] ++ rest) = .ok ([], rest)
    rw [parseBody.eq_def]
    simp
  | cons p r ih =>
    obtain ⟨m, s⟩ := p
    have hm := h (m, s) (by simp)
    have hr : validRaw r := fun q hq => h q (by simp [hq])
    rcases hm with hm | hm | hm <;> subst hm
    · have hs : srcT ((' ', s) :: r) = 1 + srcT r := by simp [srcT]
      have hd : dstT ((' ', s) :: r) = 1 + dstT r := by simp [dstT]
      rw [hs, hd, rawLines_cons, List.cons_append]
      rw [parseBody.eq_def]
      have h1 : ¬(1 + srcT r = 0 ∧ 1 + dstT r = 0) := by omega
      have h2 : ¬(1 + srcT r = 0 ∨ 1 + dstT r = 0) := by omega
      simp only [h1, if_false, h2, if_true, reduceIte]
      have he1 : 1 + srcT r - 1 = srcT r := by omega
      have he2 : 1 + dstT r - 1 = dstT r := by omega
      rw [he1, he2, ih hr]
    · have hs : srcT (('-', s) :: r) = 1 + srcT r := by simp [srcT]
      have hd : dstT (('-', s) :: r) = dstT r := by simp [dstT]
      rw [hs, hd, rawLines_cons, List.cons_append]
      rw [parseBody.eq_def]
      have h1 : ¬(1 + srcT r = 0 ∧ dstT r = 0) := by omega
      have hm1 : ¬(('-' : Char) = ' ') := by decide
      have h2 : ¬(1 + srcT r = 0) := by omega
      simp only [h1, if_false, hm1, reduceIte, h2]
      have he1 : 1 + srcT r - 1 = srcT r := by omega
      rw [he1, ih hr]
      simp
    · have hs : srcT (('+', s) :: r) = srcT r := by simp [srcT]
      have hd : dstT (('+', s) :: r) = 1 + dstT r := by simp [dstT]
      rw [hs, hd, rawLines_cons, List.cons_append]
      rw [parseBody.eq_def]
      have h1 : ¬(srcT r = 0 ∧ 1 + dstT r = 0) := by omega
      have hm1 : ¬(('+' : Char) = ' ') := by decide
      have hm2 : ¬(('+' : Char) = '-') := by decide
      have h2 : ¬(1 + dstT r = 0) := by omega
      simp only [h1, if_false, hm1, hm2, reduceIte, h2]
      have he2 : 1 + dstT r - 1 = dstT r := by omega
      rw [he2, ih hr]
      simp

theorem parseBody_sound {sc dc : Nat} {ls : List Chars}
    {raw : List (Char × Chars)} {rem : List Chars}
    (h : parseBody sc dc ls = .ok (raw, rem)) :
    ls = rawLines raw ++ rem ∧ srcT raw = sc ∧ dstT raw = dc ∧ validRaw raw := by
  induction ls generalizing sc dc raw with
  | nil =>
    rw [parseBody.eq_def] at h
    by_cases h0 : sc = 0 ∧ dc = 0
    · rw [if_pos h0] at h
      injection h with h2
      injection h2 with h3 h4
      subst h3
      subst h4
      refine ⟨rfl, by simp [srcT, h0.1], by simp [dstT, h0.2], by intro p hp; simp at hp⟩
    · rw [if_neg h0] at h
      simp at h
  | cons l rest ih =>
    rw [parseBody.eq_def] at h
    by_cases h0 : sc = 0 ∧ dc = 0
    · rw [if_pos h0] at h
      injection h with h2
      injection h2 with h3 h4
      subst h3
      subst h4
      refine ⟨rfl, by simp [srcT, h0.1], by simp [dstT, h0.2], by intro p hp; simp at hp⟩
    · rw [if_neg h0] at h
      cases l with
      | nil => simp at h
      | cons m s =>
        dsimp only [] at h
        by_cases hsp : m = ' '
        · subst hsp
          rw [if_pos (show (' ' : Char) = ' ' from rfl)] at h
          by_cases hz : sc = 0 ∨ dc = 0
          · rw [if_pos hz] at h
            simp at h
          · rw [if_neg hz] at h
            cases hpb : parseBody (sc - 1) (dc - 1) rest with
            | error e => rw [hpb] at h; simp at h
            | ok pr =>
              obtain ⟨r0, rem0⟩ := pr
              rw [hpb] at h
              injection h with h2
              injection h2 with h3 h4
              subst h3
              subst h4
              obtain ⟨ha, hb, hc, hd⟩ := ih hpb
              refine ⟨by rw [rawLines_cons, List.cons_append, ha], ?_, ?_, ?_⟩
              · show (if (' ' : Char) = ' ' ∨ (' ' : Char) = '-' then 1 else 0) + srcT r0 = sc
                rw [if_pos (by decide : (' ' : Char) = ' ' ∨ (' ' : Char) = '-')]
                omega
              · show (if (' ' : Char) = ' ' ∨ (' ' : Char) = '+' then 1 else 0) + dstT r0 = dc
                rw [if_pos (by decide : (' ' : Char) = ' ' ∨ (' ' : Char) = '+')]
                omega
              · intro p hp
                rcases List.mem_cons.1 hp with rfl | hp
                · simp
                · exact hd p hp
        · by_cases hmi : m = '-'
          · subst hmi
            rw [if_neg hsp, if_pos (show ('-' : Char) = '-' from rfl)] at h
            by_cases hz : sc = 0
            · rw [if_pos hz] at h
              simp at h
            · rw [if_neg hz] at h
              cases hpb : parseBody (sc - 1) dc rest with
              | error e => rw [hpb] at h; simp at h
              | ok pr =>
                obtain ⟨r0, rem0⟩ := pr
                rw [hpb] at h
                injection h with h2
                injection h2 with h3 h4
                subst h3
                subst h4
                obtain ⟨ha, hb, hc, hd⟩ := ih hpb
                refine ⟨by rw [rawLines_cons, List.cons_append, ha], ?_, ?_, ?_⟩
                · show (if ('-' : Char) = ' ' ∨ ('-' : Char) = '-' then 1 else 0) + srcT r0 = sc
                  rw [if_pos (by decide : ('-' : Char) = ' ' ∨ ('-' : Char) = '-')]
                  omega
                · show (if ('-' : Char) = ' ' ∨ ('-' : Char) = '+' then 1 else 0) + dstT r0 = dc
                  rw [if_neg (by decide : ¬(('-' : Char) = ' ' ∨ ('-' : Char) = '+'))]
                  omega
                · intro p hp
                  rcases List.mem_cons.1 hp with rfl | hp
                  · simp
                  · exact hd p hp
          · by_cases hpl : m = '+'
            · subst hpl
              rw [if_neg hsp, if_neg hmi, if_pos (show ('+' : Char) = '+' from rfl)] at h
              by_cases hz : dc = 0
              · rw [if_pos hz] at h
                simp at h
              · rw [if_neg hz] at h
                cases hpb : parseBody sc (dc - 1) rest with
                | error e => rw [hpb] at h; simp at h
                | ok pr =>
                  obtain ⟨r0, rem0⟩ := pr
                  rw [hpb] at h
                  injection h with h2
                  injection h2 with h3 h4
                  subst h3
                  subst h4
                  obtain ⟨ha, hb, hc, hd⟩ := ih hpb
                  refine ⟨by rw [rawLines_cons, List.cons_append, ha], ?_, ?_, ?_⟩
                  · show (if ('+' : Char) = ' ' ∨ ('+' : Char) = '-' then 1 else 0) + srcT r0 = sc
                    rw [if_neg (by decide : ¬(('+' : Char) = ' ' ∨ ('+' : Char) = '-'))]
                    omega
                  · show (if ('+' : Char) = ' ' ∨ ('+' : Char) = '+' then 1 else 0) + dstT r0 = dc
                    rw [if_pos (by decide : ('+' : Char) = ' ' ∨ ('+' : Char) = '+')]
                    omega
                  · intro p hp
                    rcases List.mem_cons.1 hp with rfl | hp
                    · simp
                    · exact hd p hp
            · rw [if_neg hsp, if_neg hmi, if_neg hpl] at h
              simp at h

/-! ### Header lines: printing and parsing -/

theorem parseSrcHeader_print {p : Chars} (ts : Option Chars) (h : '\t' ∉ p) :
    parseSrcHeader ('-' :: '-' :: '-' :: ' ' :: (p ++ tsPart ts)) = some (p, ts) := by
  show some (splitTab (p ++ tsPart ts)) = some (p, ts)
  cases ts with
  | none =>
    show some (splitTab (p ++ [])) = some (p, none)
    rw [List.append_nil, splitTab_no_tab h]
  | some t =>
    show some (splitTab (p ++ '\t' :: t)) = some (p, some t)
    rw [splitTab_app t h]

theorem parseDstHeader_print {p : Chars} (ts : Option Chars) (h : '\t' ∉ p) :
    parseDstHeader ('+' :: '+' :: '+' :: ' ' :: (p ++ tsPart ts)) = some (p, ts) := by
  show some (splitTab (p ++ tsPart ts)) = some (p, ts)
  cases ts with
  | none =>
    show some (splitTab (p ++ [])) = some (p, none)
    rw [List.append_nil, splitTab_no_tab h]
  | some t =>
    show some (splitTab (p ++ '\t' :: t)) = some (p, some t)
    rw [splitTab_app t h]

theorem parseFnPart_print (fn : Option Chars) : parseFnPart (fnPart fn) = some fn := by
  cases fn <;> rfl

theorem parseHunkHeader_shape (ss sc ds dc : Nat) (fn : Option Chars) :
    parseHunkHeader ('@' :: '@' :: ' ' :: '-' ::
      (printNat ss ++ ',' :: (printNat sc ++ ' ' :: '+' ::
        (printNat ds ++ ',' :: (printNat dc ++ ' ' :: '@' :: '@' :: fnPart fn)))))
      = some (ss, sc, ds, dc, fn) := by
  show (match parseNatPre (printNat ss ++ ',' :: (printNat sc ++ ' ' :: '+' ::
        (printNat ds ++ ',' :: (printNat dc ++ ' ' :: '@' :: '@' :: fnPart fn)))) with
    | none => none
    | some (ss2, r1) =>
      match parseCountOpt r1 with
      | none => none
      | some (sc2, r2) =>
        match r2 with
        | ' ' :: '+' :: r3 =>
          match parseNatPre r3 with
          | none => none
          | some (ds2, r4) =>
            match parseCountOpt r4 with
            | none => none
            | some (dc2, r5) =>
              match r5 with
              | ' ' :: '@' :: '@' :: r6 =>
                match parseFnPart r6 with
                | none => none
                | some fn2 => some (ss2, sc2, ds2, dc2, fn2)
              | _ => none
        | _ => none) = some (ss, sc, ds, dc, fn)
  rw [parseNatPre_print ss _ (by decide)]
  show (match parseCountOpt (',' :: (printNat sc ++ ' ' :: '+' ::
        (printNat ds ++ ',' :: (printNat dc ++ ' ' :: '@' :: '@' :: fnPart fn)))) with
    | none => none
    | some (sc2, r2) =>
      match r2 with
      | ' ' :: '+' :: r3 =>
        match parseNatPre r3 with
        | none => none
        | some (ds2, r4) =>
          match parseCountOpt r4 with
          | none => none
          | some (dc2, r5) =>
            match r5 with
            | ' ' :: '@' :: '@' :: r6 =>
              match parseFnPart r6 with
              | none => none
              | some fn2 => some (ss, sc2, ds2, dc2, fn2)
            | _ => none
      | _ => none) = some (ss, sc, ds, dc, fn)
  show (match parseNatPre (printNat sc ++ ' ' :: '+' ::
        (printNat ds ++ ',' :: (printNat dc ++ ' ' :: '@' :: '@' :: fnPart fn))) with
    | none => none
    | some (sc2, r2) =>
      match r2 with
      | ' ' :: '+' :: r3 =>
        match parseNatPre r3 with
        | none => none
        | some (ds2, r4) =>
          match parseCountOpt r4 with
          | none => none
          | some (dc2, r5) =>
            match r5 with
            | ' ' :: '@' :: '@' :: r6 =>
              match parseFnPart r6 with
              | none => none
              | some fn2 => some (ss, sc2, ds2, dc2, fn2)
            | _ => none
      | _ => none) = some (ss, sc, ds, dc, fn)
  rw [parseNatPre_print sc _ (by decide)]
  show (match parseNatPre (printNat ds ++ ',' ::
        (printNat dc ++ ' ' :: '@' :: '@' :: fnPart fn)) with
    | none => none
    | some (ds2, r4) =>
      match parseCountOpt r4 with
      | none => none
      | some (dc2, r5) =>
        match r5 with
        | ' ' :: '@' :: '@' :: r6 =>
          match parseFnPart r6 with
          | none => none
          | some fn2 => some (ss, sc, ds2, dc2, fn2)
        | _ => none) = some (ss, sc, ds, dc, fn)
  rw [parseNatPre_print ds _ (by decide)]
  show (match parseNatPre (printNat dc ++ ' ' :: '@' :: '@' :: fnPart fn) with
    | none => none
    | some (dc2, r5) =>
      match r5 with
      | ' ' :: '@' :: '@' :: r6 =>
        match parseFnPart r6 with
        | none => none
        | some fn2 => some (ss, sc, ds, dc2, fn2)
      | _ => none) = some (ss, sc, ds, dc, fn)
  rw [parseNatPre_print dc _ (by decide)]
  show (match parseFnPart (fnPart fn) with
    | none => none
    | some fn2 => some (ss, sc, ds, dc, fn2)) = some (ss, sc, ds, dc, fn)
  rw [parseFnPart_print fn]

theorem parseHunkHeader_print (h : Hunk) :
    parseHunkHeader (hunkHeaderLine h)
      = some (h.sourceStart, h.sourceCount, h.destStart, h.destCount, h.functionName) := by
  have := parseHunkHeader_shape h.sourceStart h.sourceCount h.destStart h.destCount
    h.functionName
  rw [← this]
  congr 1
  unfold hunkHeaderLine
  simp [List.cons_append, List.append_assoc]

theorem isHunkStart_headerLine (h : Hunk) : isHunkStart (hunkHeaderLine h) = true := rfl

theorem isHunkStart_ne {m : Char} (s : Chars) (h : ¬(m = '@')) :
    isHunkStart (m :: s) = false := by
  cases s with
  | nil => rfl
  | cons d t => simp [isHunkStart, h]

/-! ### Header soundness: result strings are drawn from the input line -/

theorem parseNatPre_mem {cs : Chars} {n : Nat} {r : Chars}
    (h : parseNatPre cs = some (n, r)) : ∀ c ∈ r, c ∈ cs := by
  unfold parseNatPre at h
  split at h
  · simp at h
  · injection h with h2
    injection h2 with h3 h4
    subst h4
    intro c hc
    exact mem_dropWhile hc

theorem parseCountOpt_mem {cs : Chars} {n : Nat} {r : Chars}
    (h : parseCountOpt cs = some (n, r)) : ∀ c ∈ r, c ∈ cs := by
  cases cs with
  | nil =>
    injection h with h2
    injection h2 with h3 h4
    subst h4
    intro c hc
    simp at hc
  | cons c0 t =>
    by_cases hc : c0 = ','
    · subst hc
      rw [show parseCountOpt (',' :: t) = parseNatPre t from by simp [parseCountOpt]] at h
      intro c hcm
      exact List.mem_cons_of_mem _ (parseNatPre_mem h c hcm)
    · rw [show parseCountOpt (c0 :: t) = some (1, c0 :: t) from by simp [parseCountOpt, hc]] at h
      injection h with h2
      injection h2 with h3 h4
      subst h4
      intro c hcm
      exact hcm

theorem parseSrcHeader_sound {l p : Chars} {ts : Option Chars}
    (h : parseSrcHeader l = some (p, ts)) :
    '\t' ∉ p ∧ (∀ c ∈ p, c ∈ l) ∧ (∀ s, ts = some s → ∀ c ∈ s, c ∈ l) := by
  unfold parseSrcHeader at h
  split at h
  · rename_i rest
    injection h with h2
    obtain ⟨hm, htab, hts⟩ := splitTab_mem (h2 ▸ rfl : splitTab rest = (p, ts))
    refine ⟨htab, ?_, ?_⟩
    · intro c hc
      simp [hm c hc]
    · intro s hs c hc
      simp [hts s hs c hc]
  · simp at h

theorem parseDstHeader_sound {l p : Chars} {ts : Option Chars}
    (h : parseDstHeader l = some (p, ts)) :
    '\t' ∉ p ∧ (∀ c ∈ p, c ∈ l) ∧ (∀ s, ts = some s → ∀ c ∈ s, c ∈ l) := by
  unfold parseDstHeader at h
  split at h
  · rename_i rest
    injection h with h2
    obtain ⟨hm, htab, hts⟩ := splitTab_mem (h2 ▸ rfl : splitTab rest = (p, ts))
    refine ⟨htab, ?_, ?_⟩
    · intro c hc
      simp [hm c hc]
    · intro s hs c hc
      simp [hts s hs c hc]
  · simp at h

theorem parseFnPart_sound {r6 : Chars} {fn : Option Chars}
    (h : parseFnPart r6 = some fn) : ∀ f, fn = some f → r6 = ' ' :: f := by
  cases r6 with
  | nil =>
    injection h with h2
    intro f hf
    rw [← h2] at hf
    simp at hf
  | cons a t =>
    unfold parseFnPart at h
    dsimp only [] at h
    by_cases hsp : a = ' '
    · rw [if_pos hsp] at h
      injection h with h2
      intro f hf
      rw [← h2] at hf
      injection hf with hf2
      rw [hsp, hf2]
    · rw [if_neg hsp] at h
      simp at h

theorem parseHunkHeader_fn_mem {l : Chars} {ss sc ds dc : Nat} {fn : Option Chars}
    (h : parseHunkHeader l = some (ss, sc, ds, dc, fn)) :
    ∀ f, fn = some f → ∀ c ∈ f, c ∈ l := by
  unfold parseHunkHeader at h
  split at h
  case h_2 => simp at h
  case h_1 r0 =>
    cases hn1 : parseNatPre r0 with
    | none => rw [hn1] at h; simp at h
    | some pr1 =>
      obtain ⟨ss1, r1⟩ := pr1
      rw [hn1] at h
      dsimp only [] at h
      cases hc1 : parseCountOpt r1 with
      | none => rw [hc1] at h; simp at h
      | some pr2 =>
        obtain ⟨sc1, r2⟩ := pr2
        rw [hc1] at h
        dsimp only [] at h
        split at h
        case h_2 => simp at h
        case h_1 r3 =>
          cases hn2 : parseNatPre r3 with
          | none => rw [hn2] at h; simp at h
          | some pr3 =>
            obtain ⟨ds1, r4⟩ := pr3
            rw [hn2] at h
            dsimp only [] at h
            cases hc2 : parseCountOpt r4 with
            | none => rw [hc2] at h; simp at h
            | some pr4 =>
              obtain ⟨dc1, r5⟩ := pr4
              rw [hc2] at h
              dsimp only [] at h
              split at h
              case h_2 => simp at h
              case h_1 r6 =>
                cases hf : parseFnPart r6 with
                | none => rw [hf] at h; simp at h
                | some fn1 =>
                  rw [hf] at h
                  dsimp only [] at h
                  injection h with h2
                  have e5 : fn1 = fn := congrArg (fun q => q.2.2.2.2) h2
                  subst e5
                  intro f hfn c hc
                  subst hfn
                  have hcf : c ∈ r6 := by
                    rw [parseFnPart_sound hf f rfl]
                    simp [hc]
                  have h5 : c ∈ (' ' :: '@' :: '@' :: r6 : Chars) := by simp [hcf]
                  have h4 : c ∈ r4 := parseCountOpt_mem hc2 c h5
                  have h3 : c ∈ r3 := parseNatPre_mem hn2 c h4
                  have h2r : c ∈ (' ' :: '+' :: r3 : Chars) := by simp [h3]
                  have hh1 : c ∈ r1 := parseCountOpt_mem hc1 c h2r
                  have hh0 : c ∈ r0 := parseNatPre_mem hn1 c hh1
                  simp [hh0]

/-! ### Serialized lines: counting and newline-freedom -/

theorem emitHunks_length_ge {hs : List Hunk} (h : ∀ hk ∈ hs, wfHunk hk) :
    hs.length ≤ (emitHunks hs).length := by
  induction hs with
  | nil => simp [emitHunks, catMap]
  | cons hk t ih =>
    have hn : hk.kind = .normal := (h hk (by simp)).1
    show (hk :: t).length ≤ (emitHunk hk ++ emitHunks t).length
    rw [List.length_append]
    unfold emitHunk
    rw [hn]
    have := ih fun x hx => h x (by simp [hx])
    simp only [List.length_cons]
    omega

theorem psLines_length_ge (fps : List FilePatch) :
    fps.length ≤ (catMap emitFile fps).length := by
  induction fps with
  | nil => simp [catMap]
  | cons fp t ih =>
    show (fp :: t).length ≤ (emitFile fp ++ catMap emitFile t).length
    rw [List.length_append]
    have h2 : 2 ≤ (emitFile fp).length := by
      show 2 ≤ (_ :: _ :: emitHunks fp.hunks).length
      simp only [List.length_cons]
      omega
    simp only [List.length_cons]
    omega

theorem nlFree_printNat (n : Nat) : nlFree (printNat n) := by
  intro hm
  have := printNat_digits n _ hm
  simp [isDig] at this

theorem nlFree_append {a b : Chars} (ha : nlFree a) (hb : nlFree b) :
    nlFree (a ++ b) := by
  intro hm
  rcases List.mem_append.1 hm with hm | hm
  · exact ha hm
  · exact hb hm

theorem nlFree_cons {c : Char} {a : Chars} (hc : ¬(c = '\n')) (ha : nlFree a) :
    nlFree (c :: a) := by
  intro hm
  rcases List.mem_cons.1 hm with hm | hm
  · exact hc hm.symm
  · exact ha hm

theorem nlFree_hunkHeaderLine {h : Hunk} (hwf : wfHunk h) :
    nlFree (hunkHeaderLine h) := by
  obtain ⟨hk, hsc, hdc, hnf, hcl, hfn⟩ := hwf
  unfold hunkHeaderLine
  have hfp : nlFree (fnPart h.functionName) := by
    cases hf : h.functionName with
    | none => intro hm; simp [fnPart] at hm
    | some f =>
      exact nlFree_cons (by decide) (hfn f hf)
  refine nlFree_cons (by decide) (nlFree_cons (by decide) (nlFree_cons (by decide)
    (nlFree_cons (by decide)
      (nlFree_append
        (nlFree_append (nlFree_printNat _) (nlFree_cons (by decide) (nlFree_printNat _)))
        (nlFree_cons (by decide) (nlFree_cons (by decide)
          (nlFree_append
            (nlFree_append (nlFree_printNat _)
              (nlFree_cons (by decide) (nlFree_printNat _)))
            (nlFree_cons (by decide) (nlFree_cons (by decide)
              (nlFree_cons (by decide) hfp))))))))))

theorem nlFree_tsPart {ts : Option Chars} (h : ∀ t, ts = some t → nlFree t) :
    nlFree (tsPart ts) := by
  cases hts : ts with
  | none => intro hm; simp [tsPart] at hm
  | some t => exact nlFree_cons (by decide) (h t hts)

theorem emitHunk_nlFree {h : Hunk} (hwf : wfHunk h) :
    ∀ l ∈ emitHunk h, nlFree l := by
  obtain ⟨hk, hsc, hdc, hnf, hcl, hfn⟩ := hwf
  intro l hl
  unfold emitHunk at hl
  rw [hk] at hl
  rcases List.mem_cons.1 hl with rfl | hl
  · exact nlFree_hunkHeaderLine ⟨hk, hsc, hdc, hnf, hcl, hfn⟩
  · simp only [rawLines, List.mem_map] at hl
    obtain ⟨p, hp, rfl⟩ := hl
    have hm := validRaw_diffsRaw h.diffs p hp
    have hs := hcl p hp
    refine nlFree_cons ?_ hs
    rcases hm with hm | hm | hm <;> rw [hm] <;> decide

theorem emitHunksAll_nlFree {hs : List Hunk} (h : ∀ hk ∈ hs, wfHunk hk) :
    ∀ l ∈ emitHunks hs, nlFree l := by
  induction hs with
  | nil => intro l hl; simp [emitHunks, catMap] at hl
  | cons hk t ih =>
    intro l hl
    rcases List.mem_append.1 hl with hl | hl
    · exact emitHunk_nlFree (h hk (by simp)) l hl
    · exact ih (fun x hx => h x (by simp [hx])) l hl

theorem emitFiles_nlFree {fps : List FilePatch} (hfl : ∀ fp ∈ fps, wfFile fp) :
    ∀ l ∈ catMap emitFile fps, nlFree l := by
  induction fps with
  | nil => intro l hl; simp [catMap] at hl
  | cons fp t ih =>
    intro l hl
    obtain ⟨hsn, hst, hdn, hdt, hsts, hdts, hsr, hdr, hbl, hhk⟩ := hfl fp (by simp)
    rcases List.mem_append.1 hl with hl | hl
    · rcases List.mem_cons.1 hl with rfl | hl
      · exact nlFree_cons (by decide) (nlFree_cons (by decide) (nlFree_cons (by decide)
          (nlFree_cons (by decide) (nlFree_append hsn (nlFree_tsPart hsts)))))
      · rcases List.mem_cons.1 hl with rfl | hl
        · exact nlFree_cons (by decide) (nlFree_cons (by decide) (nlFree_cons (by decide)
            (nlFree_cons (by decide) (nlFree_append hdn (nlFree_tsPart hdts)))))
        · exact emitHunksAll_nlFree hhk l hl
    · exact ih (fun x hx => hfl x (by simp [hx])) l hl

theorem psLines_nlFree {ps : PatchSet} (hwf : wfPS ps) :
    ∀ l ∈ psLines ps, nlFree l :=
  emitFiles_nlFree hwf.1

/-! ### parseHunks / parseFiles: printing direction -/

theorem parseHunks_print (hs : List Hunk) : ∀ (fuel : Nat) (rest : List Chars),
    (∀ hk ∈ hs, wfHunk hk) → hs.length < fuel →
    (∀ l, rest.head? = some l → isHunkStart l = false) →
    parseHunks fuel (emitHunks hs ++ rest) = .ok (hs, rest) := by
  induction hs with
  | nil =>
    intro fuel rest hwf hfuel hhead
    cases fuel with
    | zero => omega
    | succ f =>
      show parseHunks (f + 1) ([] ++ rest) = .ok ([], rest)
      rw [List.nil_append]
      cases rest with
      | nil => rfl
      | cons l t =>
        have hns : isHunkStart l = false := hhead l rfl
        rw [parseHunks]
        rw [hns]
        simp
  | cons hk t ih =>
    intro fuel rest hwf hfuel hhead
    cases fuel with
    | zero => omega
    | succ f =>
      have hwk := hwf hk (by simp)
      obtain ⟨hknd, hsc, hdc, hnf, hcl, hfn⟩ := hwk
      have hemit : emitHunk hk = hunkHeaderLine hk :: rawLines (diffsRaw hk.diffs) := by
        unfold emitHunk
        rw [hknd]
      have hshape : emitHunks (hk :: t) ++ rest
          = hunkHeaderLine hk :: (rawLines (diffsRaw hk.diffs) ++ (emitHunks t ++ rest)) := by
        show (emitHunk hk ++ emitHunks t) ++ rest = _
        rw [hemit]
        simp [List.append_assoc]
      rw [hshape]
      rw [parseHunks]
      rw [isHunkStart_headerLine hk]
      rw [parseHunkHeader_print hk]
      simp only []
      rw [hsc, hdc]
      rw [parseBody_print (diffsRaw hk.diffs) (emitHunks t ++ rest) (validRaw_diffsRaw _)]
      simp only []
      rw [ih f rest (fun x hx => hwf x (by simp [hx])) (by simp at hfuel; omega) hhead]
      simp only []
      rw [hnf]
      have hhk2 : (⟨hk.sourceStart, srcT (diffsRaw hk.diffs), hk.destStart,
          dstT (diffsRaw hk.diffs), hk.functionName, HunkType.normal, hk.diffs⟩ : Hunk) = hk := by
        rw [← hsc, ← hdc, ← hknd]
      rw [hhk2]
      simp

theorem parseFiles_print (fps : List FilePatch) : ∀ (fuel : Nat),
    (∀ fp ∈ fps, wfFile fp) → fps.length < fuel →
    parseFiles fuel (catMap emitFile fps) = .ok fps := by
  induction fps with
  | nil =>
    intro fuel hwf hfuel
    cases fuel with
    | zero => omega
    | succ f => rfl
  | cons fp t ih =>
    intro fuel hwf hfuel
    cases fuel with
    | zero => omega
    | succ f =>
      obtain ⟨hsn, hst, hdn, hdt, hsts, hdts, hsr, hdr, hbl, hhk⟩ := hwf fp (by simp)
      have hshape : catMap emitFile (fp :: t)
          = ('-' :: '-' :: '-' :: ' ' :: (fp.source ++ tsPart fp.sourceTimestamp))
            :: (('+' :: '+' :: '+' :: ' ' :: (fp.destination ++ tsPart fp.destTimestamp))
            :: (emitHunks fp.hunks ++ catMap emitFile t)) := by
        show emitFile fp ++ catMap emitFile t = _
        unfold emitFile
        simp [List.append_assoc]
      rw [hshape]
      rw [parseFiles]
      rw [parseSrcHeader_print fp.sourceTimestamp hst]
      simp only []
      rw [parseDstHeader_print fp.destTimestamp hdt]
      simp only []
      have hhead : ∀ l, (catMap emitFile t).head? = some l → isHunkStart l = false := by
        intro l hl
        cases t with
        | nil => simp [catMap] at hl
        | cons fp2 t2 =>
          have : catMap emitFile (fp2 :: t2)
              = ('-' :: '-' :: '-' :: ' ' :: (fp2.source ++ tsPart fp2.sourceTimestamp))
                :: (('+' :: '+' :: '+' :: ' ' :: (fp2.destination ++ tsPart fp2.destTimestamp))
                :: (emitHunks fp2.hunks ++ catMap emitFile t2)) := by
            show emitFile fp2 ++ catMap emitFile t2 = _
            unfold emitFile
            simp [List.append_assoc]
          rw [this] at hl
          simp only [List.head?_cons, Option.some.injEq] at hl
          subst hl
          rfl
      have hfg : fp.hunks.length
          < (emitHunks fp.hunks ++ catMap emitFile t).length + 1 := by
        have := emitHunks_length_ge hhk
        rw [List.length_append]
        omega
      rw [parseHunks_print fp.hunks _ _ hhk hfg hhead]
      simp only []
      rw [ih f (fun x hx => hwf x (by simp [hx])) (by simp at hfuel; omega)]
      simp only []
      have hfp2 : (⟨fp.source, fp.destination, fp.sourceTimestamp, fp.destTimestamp,
          none, none, fp.hunks, false⟩ : FilePatch) = fp := by
        obtain ⟨s2, d2, st2, dt2, sr2, dr2, hs2, bl2⟩ := fp
        simp only [] at hsr hdr hbl
        rw [hsr, hdr, hbl]
      rw [hfp2]

/-- Reparsing the serialized text of a well-formed PatchSet recovers it. -/
theorem serialize_reparse {ps : PatchSet} (hwf : wfPS ps) :
    parseDiff (serializeDiff ps) = .ok ps := by
  have hnl := psLines_nlFree hwf
  obtain ⟨hfl, hfmt, hgen⟩ := hwf
  obtain ⟨fs, fm, gn⟩ := ps
  simp only [] at hfl hfmt hgen hnl
  unfold parseDiff serializeDiff
  have hplines : psLines ⟨fs, fm, gn⟩ = catMap emitFile fs := rfl
  rw [hplines] at hnl
  rw [hplines, splitLines_unlines hnl]
  cases fs with
  | nil =>
    show Except.ok (⟨[], DiffFormat.unknown, DiffGenerator.unknown⟩ : PatchSet)
      = Except.ok ⟨[], fm, gn⟩
    simp only [List.isEmpty_nil, if_true] at hfmt
    rw [hfmt, hgen]
  | cons fp t =>
    have hskip : skipJunk (catMap emitFile (fp :: t)) = catMap emitFile (fp :: t) := by
      show List.dropWhile _ (('-' :: '-' :: '-' :: ' '
        :: (fp.source ++ tsPart fp.sourceTimestamp)) :: _) = _
      rw [List.dropWhile_cons]
      have hstr : isStructural ('-' :: '-' :: '-' :: ' '
          :: (fp.source ++ tsPart fp.sourceTimestamp)) = true := rfl
      rw [hstr]
      simp only [Bool.not_true, Bool.false_eq_true, if_false, reduceIte]
      rfl
    rw [hskip]
    have hlen : (fp :: t).length < (catMap emitFile (fp :: t)).length + 1 := by
      have := psLines_length_ge (fp :: t)
      omega
    show (match parseFiles ((catMap emitFile (fp :: t)).length + 1)
        (catMap emitFile (fp :: t)) with
      | .error e => Except.error e
      | .ok fps =>
        Except.ok (⟨fps, if fps.isEmpty then DiffFormat.unknown else DiffFormat.unified,
          DiffGenerator.unknown⟩ : PatchSet))
      = Except.ok ⟨fp :: t, fm, gn⟩
    rw [parseFiles_print (fp :: t) _ hfl hlen]
    show Except.ok (⟨fp :: t, DiffFormat.unified, DiffGenerator.unknown⟩ : PatchSet)
      = Except.ok ⟨fp :: t, fm, gn⟩
    simp only [List.isEmpty_cons, if_false, Bool.false_eq_true, reduceIte] at hfmt
    rw [hfmt, hgen]

/-! ### Parser soundness: parsed PatchSets are well-formed -/

theorem parseHunks_sound : ∀ (fuel : Nat) {ls : List Chars} {hs : List Hunk}
    {rem : List Chars}, parseHunks fuel ls = .ok (hs, rem) →
    (∀ l ∈ ls, nlFree l) →
    (∀ hk ∈ hs, wfHunk hk) ∧ (∀ l ∈ rem, nlFree l) := by
  intro fuel
  induction fuel with
  | zero =>
    intro ls hs rem h hnl
    simp [parseHunks] at h
  | succ f ih =>
    intro ls hs rem h hnl
    cases ls with
    | nil =>
      rw [parseHunks] at h
      injection h with h2
      injection h2 with h3 h4
      subst h3
      subst h4
      exact ⟨by intro hk hhk; simp at hhk, by intro l hl; simp at hl⟩
    | cons l rest =>
      rw [parseHunks] at h
      by_cases hhs : isHunkStart l = true
      · rw [hhs] at h
        simp only [if_true, reduceIte] at h
        cases hph : parseHunkHeader l with
        | none => rw [hph] at h; simp at h
        | some tup =>
          obtain ⟨ss, sc, ds, dc, fn⟩ := tup
          rw [hph] at h
          dsimp only [] at h
          cases hpb : parseBody sc dc rest with
          | error e => rw [hpb] at h; simp at h
          | ok pr =>
            obtain ⟨raw, rem0⟩ := pr
            rw [hpb] at h
            dsimp only [] at h
            cases hpk : parseHunks f rem0 with
            | error e => rw [hpk] at h; simp at h
            | ok pr2 =>
              obtain ⟨hs0, rem1⟩ := pr2
              rw [hpk] at h
              dsimp only [] at h
              injection h with h2
              injection h2 with h3 h4
              subst h3
              subst h4
              obtain ⟨hb1, hb2, hb3, hb4⟩ := parseBody_sound hpb
              have hrest : ∀ x ∈ rest, nlFree x := fun x hx => hnl x (by simp [hx])
              have hrem0 : ∀ x ∈ rem0, nlFree x := by
                intro x hx
                exact hrest x (by rw [hb1]; simp [hx])
              obtain ⟨ih1, ih2⟩ := ih hpk hrem0
              refine ⟨?_, ih2⟩
              intro hk hhk
              rcases List.mem_cons.1 hhk with rfl | hhk
              · refine ⟨rfl, ?_, ?_, ?_, ?_, ?_⟩
                · show sc = srcT (diffsRaw (rle raw))
                  rw [diffsRaw_rle hb4, hb2]
                · show dc = dstT (diffsRaw (rle raw))
                  rw [diffsRaw_rle hb4, hb3]
                · show rle (diffsRaw (rle raw)) = rle raw
                  rw [diffsRaw_rle hb4]
                · show ∀ p ∈ diffsRaw (rle raw), nlFree p.2
                  rw [diffsRaw_rle hb4]
                  intro p hp hc
                  have hline : (p.1 :: p.2) ∈ rawLines raw := by
                    simp only [rawLines, List.mem_map]
                    exact ⟨p, hp, rfl⟩
                  have : nlFree (p.1 :: p.2) :=
                    hrest (p.1 :: p.2) (by rw [hb1]; simp [hline])
                  exact this (by simp [hc])
                · show ∀ fv, fn = some fv → nlFree fv
                  intro fv hfv hc
                  exact hnl l (by simp) (parseHunkHeader_fn_mem hph fv hfv _ hc)
              · exact ih1 hk hhk
      · simp only [hhs] at h
        simp only [Bool.false_eq_true, if_false, reduceIte] at h
        injection h with h2
        injection h2 with h3 h4
        subst h3
        subst h4
        exact ⟨by intro hk hhk; simp at hhk, hnl⟩

theorem parseFiles_sound : ∀ (fuel : Nat) {ls : List Chars} {fps : List FilePatch},
    parseFiles fuel ls = .ok fps → (∀ l ∈ ls, nlFree l) →
    ∀ fp ∈ fps, wfFile fp := by
  intro fuel
  induction fuel with
  | zero =>
    intro ls fps h hnl
    simp [parseFiles] at h
  | succ f ih =>
    intro ls fps h hnl
    cases ls with
    | nil =>
      rw [parseFiles] at h
      injection h with h2
      subst h2
      intro fp hfp
      simp at hfp
    | cons l rest =>
      rw [parseFiles] at h
      cases hsrc : parseSrcHeader l with
      | none => rw [hsrc] at h; simp at h
      | some pr =>
        obtain ⟨src, sts⟩ := pr
        rw [hsrc] at h
        dsimp only [] at h
        cases rest with
        | nil => simp at h
        | cons l2 rest2 =>
          dsimp only [] at h
          cases hdst : parseDstHeader l2 with
          | none => rw [hdst] at h; simp at h
          | some pr2 =>
            obtain ⟨dst, dts⟩ := pr2
            rw [hdst] at h
            dsimp only [] at h
            cases hpk : parseHunks (rest2.length + 1) rest2 with
            | error e => rw [hpk] at h; simp at h
            | ok pr3 =>
              obtain ⟨hs, rem⟩ := pr3
              rw [hpk] at h
              dsimp only [] at h
              cases hpf : parseFiles f rem with
              | error e => rw [hpf] at h; simp at h
              | ok fps0 =>
                rw [hpf] at h
                dsimp only [] at h
                injection h with h2
                subst h2
                have hrest2 : ∀ x ∈ rest2, nlFree x := fun x hx => hnl x (by simp [hx])
                obtain ⟨hwfh, hremnl⟩ := parseHunks_sound _ hpk hrest2
                obtain ⟨hsrctab, hsrcmem, hstsmem⟩ := parseSrcHeader_sound hsrc
                obtain ⟨hdsttab, hdstmem, hdtsmem⟩ := parseDstHeader_sound hdst
                intro fp hfp
                rcases List.mem_cons.1 hfp with rfl | hfp
                · refine ⟨?_, hsrctab, ?_, hdsttab, ?_, ?_, rfl, rfl, rfl, hwfh⟩
                  · intro hc
                    exact hnl l (by simp) (hsrcmem _ hc)
                  · intro hc
                    exact hnl l2 (by simp) (hdstmem _ hc)
                  · intro t ht hc
                    exact hnl l (by simp) (hstsmem t ht _ hc)
                  · intro t ht hc
                    exact hnl l2 (by simp) (hdtsmem t ht _ hc)
                · exact ih hpf hremnl fp hfp

theorem parseDiff_wf {cs : Chars} {ps : PatchSet} (h : parseDiff cs = .ok ps) :
    wfPS ps := by
  unfold parseDiff at h
  dsimp only [] at h
  cases hpf : parseFiles ((skipJunk (splitLines cs)).length + 1) (skipJunk (splitLines cs)) with
  | error e => rw [hpf] at h; simp at h
  | ok fps =>
    rw [hpf] at h
    dsimp only [] at h
    injection h with h2
    subst h2
    have hnl : ∀ l ∈ skipJunk (splitLines cs), nlFree l := by
      intro l hl
      exact splitLines_nlFree cs l (mem_dropWhile hl)
    exact ⟨parseFiles_sound _ hpf hnl, rfl, rfl⟩

/-- C1: for every well-formed unified diff text (one the parser accepts),
serializing the freshly parsed, never-blended, never-mutated PatchSet
produces unified-diff text that is semantically equal to the input: it
parses back to the very same PatchSet — same files, same hunk ranges, and
identical line markers and line content (header whitespace/formatting may
be normalized, which reparse-equality permits). -/
theorem c1_parse_serialize_round_trip {cs : Chars} {ps : PatchSet}
    (h : parseDiff cs = .ok ps) :
    parseDiff (serializeDiff ps) = .ok ps :=
  serialize_reparse (parseDiff_wf h)

set_option maxRecDepth 20000 in
/-- Witness for C1 at the concrete diff `inpC1`. -/
theorem c1_parse_serialize_round_trip_witness :
    parseDiff inpC1 = .ok psC1 ∧ parseDiff (serializeDiff psC1) = .ok psC1 :=
  ⟨rfl, c1_parse_serialize_round_trip (rfl : parseDiff inpC1 = .ok psC1)⟩

/-! ### C7: the serializer skips AddedByBlend hunks -/

theorem emitHunk_blended {hk : Hunk} (h : hk.kind = .addedByBlend) : emitHunk hk = [] := by
  unfold emitHunk
  rw [h]

theorem emitHunks_filterNormal (hs : List Hunk) :
    emitHunks (hs.filter fun hk => hk.kind == HunkType.normal) = emitHunks hs := by
  induction hs with
  | nil => rfl
  | cons hk t ih =>
    rw [List.filter_cons]
    cases hknd : hk.kind with
    | normal =>
      simp only [show (HunkType.normal == HunkType.normal) = true from rfl, if_true, reduceIte]
      show emitHunk hk ++ emitHunks (t.filter fun hk => hk.kind == HunkType.normal)
        = emitHunk hk ++ emitHunks t
      rw [ih]
    | addedByBlend =>
      simp only [show (HunkType.addedByBlend == HunkType.normal) = false from rfl,
        Bool.false_eq_true, if_false, reduceIte]
      show emitHunks (t.filter fun hk => hk.kind == HunkType.normal)
        = emitHunk hk ++ emitHunks t
      rw [emitHunk_blended hknd, ih]
      rfl

theorem psLines_filterNormal (ps : PatchSet) :
    psLines (filterNormalPS ps) = psLines ps := by
  unfold psLines filterNormalPS
  simp only []
  induction ps.files with
  | nil => rfl
  | cons fp t ih =>
    show emitFile { fp with hunks := fp.hunks.filter fun hk => hk.kind == HunkType.normal }
        ++ catMap emitFile (t.map _) = emitFile fp ++ catMap emitFile t
    rw [ih]
    unfold emitFile
    simp only []
    rw [emitHunks_filterNormal]

theorem blendGo_emitHunks {total : Nat} {lines : List Chars} :
    ∀ {hs : List Hunk} {pos : Nat} {hs2 : List Hunk},
    blendGo total lines pos hs = .ok hs2 → emitHunks hs2 = emitHunks hs := by
  intro hs
  induction hs with
  | nil =>
    intro pos hs2 h
    rw [blendGo] at h
    by_cases h1 : pos = total + 1
    · rw [if_pos h1] at h
      injection h with h2
      rw [← h2]
    · rw [if_neg h1] at h
      by_cases h2 : pos ≤ total
      · rw [if_pos h2] at h
        injection h with h3
        rw [← h3]
        show emitHunk (gapHunk pos (total + 1 - pos) lines) ++ emitHunks [] = emitHunks []
        rw [emitHunk_blended (rfl : (gapHunk pos (total + 1 - pos) lines).kind = _)]
        rfl
      · rw [if_neg h2] at h
        simp at h
  | cons hk t ih =>
    intro pos hs2 h
    rw [blendGo] at h
    by_cases h1 : hk.destStart < pos
    · rw [if_pos h1] at h
      simp at h
    · rw [if_neg h1] at h
      by_cases h2 : total + 1 < hk.destStart + hk.destCount
      · rw [if_pos h2] at h
        simp at h
      · rw [if_neg h2] at h
        cases hgo : blendGo total lines (hk.destStart + hk.destCount) t with
        | error e => rw [hgo] at h; simp at h
        | ok hs0 =>
          rw [hgo] at h
          dsimp only [] at h
          have hrec := ih hgo
          by_cases h3 : pos < hk.destStart
          · rw [if_pos h3] at h
            injection h with h4
            rw [← h4]
            show emitHunk (gapHunk pos (hk.destStart - pos) lines)
              ++ (emitHunk hk ++ emitHunks hs0) = emitHunk hk ++ emitHunks t
            rw [emitHunk_blended (rfl : (gapHunk pos (hk.destStart - pos) lines).kind = _)]
            rw [hrec]
            rfl
          · rw [if_neg h3] at h
            injection h with h4
            rw [← h4]
            show emitHunk hk ++ emitHunks hs0 = emitHunk hk ++ emitHunks t
            rw [hrec]

/-- C7: the serializer never emits a hunk of kind AddedByBlend: its output
on any PatchSet equals its output on the PatchSet with only Normal hunks
kept, and a successful blend (which inserts only AddedByBlend hunks) does
not change the serialized text at all. -/
theorem c7_serialize_skips_blended :
    (∀ ps : PatchSet, serializeDiff ps = serializeDiff (filterNormalPS ps)) ∧
    (∀ (fp : FilePatch) (content : Chars) (fp2 : FilePatch),
      blendFP fp content = .ok fp2 → emitHunks fp2.hunks = emitHunks fp.hunks) := by
  constructor
  · intro ps
    unfold serializeDiff
    rw [psLines_filterNormal]
  · intro fp content fp2 h
    unfold blendFP at h
    by_cases hb : fp.blended = true
    · rw [if_pos hb] at h
      simp at h
    · rw [if_neg hb] at h
      cases hgo : blendGo (splitLines content).length (splitLines content) 1 fp.hunks with
      | error e => rw [hgo] at h; simp at h
      | ok hs2 =>
        rw [hgo] at h
        dsimp only [] at h
        injection h with h2
        rw [← h2]
        exact blendGo_emitHunks hgo

/-- Witness for C7's second conjunct at the concrete blend example. -/
theorem c7_serialize_skips_blended_witness :
    serializeDiff psBlend = serializeDiff (filterNormalPS psBlend) ∧
    blendFP fpBlend origBlend = .ok fpBlended ∧
    emitHunks fpBlended.hunks = emitHunks fpBlend.hunks :=
  ⟨c7_serialize_skips_blended.1 psBlend, rfl,
    c7_serialize_skips_blended.2 fpBlend origBlend fpBlended rfl⟩

/-! ### Flat-index machinery for the apply engine -/

theorem nonUnchanged_type {d e : Difference} (h : e.type = d.type) :
    nonUnchanged e = nonUnchanged d := by
  unfold nonUnchanged
  rw [h]

theorem setAppliedAt_type (i : Nat) (b : Bool) (j : Nat) (d : Difference) :
    (setAppliedAt i b j d).type = d.type := by
  unfold setAppliedAt
  by_cases h : j = i
  · rw [if_pos h]
  · rw [if_neg h]

theorem mapIdxFrom_length (f : Nat → α → α) : ∀ (i : Nat) (l : List α),
    (mapIdxFrom f i l).length = l.length := by
  intro i l
  induction l generalizing i with
  | nil => rfl
  | cons a t ih => simp [mapIdxFrom, ih]

theorem mapIdxFrom_append (f : Nat → α → α) : ∀ (i : Nat) (xs ys : List α),
    mapIdxFrom f i (xs ++ ys) = mapIdxFrom f i xs ++ mapIdxFrom f (i + xs.length) ys := by
  intro i xs
  induction xs generalizing i with
  | nil => intro ys; simp [mapIdxFrom]
  | cons a t ih =>
    intro ys
    show f i a :: mapIdxFrom f (i + 1) (t ++ ys)
      = f i a :: mapIdxFrom f (i + 1) t ++ mapIdxFrom f (i + (t.length + 1)) ys
    rw [ih (i + 1)]
    have he : i + (t.length + 1) = (i + 1) + t.length := by omega
    rw [he]
    rfl

theorem mapIdxFrom_getElem (f : Nat → α → α) : ∀ (i : Nat) (l : List α) (j : Nat),
    (mapIdxFrom f i l)[j]? = (l[j]?).map (f (i + j)) := by
  intro i l
  induction l generalizing i with
  | nil => intro j; simp [mapIdxFrom]
  | cons a t ih =>
    intro j
    cases j with
    | zero => simp [mapIdxFrom]
    | succ k =>
      have he : i + (k + 1) = (i + 1) + k := by omega
      rw [he, List.getElem?_cons_succ]
      rw [show mapIdxFrom f i (a :: t) = f i a :: mapIdxFrom f (i + 1) t from rfl,
        List.getElem?_cons_succ]
      exact ih (i + 1) k

theorem mapIdxFrom_congr {f g : Nat → α → α} (h : ∀ j a, f j a = g j a) :
    ∀ (i : Nat) (l : List α), mapIdxFrom f i l = mapIdxFrom g i l := by
  intro i l
  induction l generalizing i with
  | nil => rfl
  | cons a t ih => simp [mapIdxFrom, h, ih]

theorem mapIdxFrom_comp (f g : Nat → α → α) : ∀ (i : Nat) (l : List α),
    mapIdxFrom f i (mapIdxFrom g i l) = mapIdxFrom (fun j a => f j (g j a)) i l := by
  intro i l
  induction l generalizing i with
  | nil => rfl
  | cons a t ih => simp [mapIdxFrom, ih]

theorem mapIdxFrom_id {f : Nat → α → α} : ∀ (i : Nat) (l : List α),
    (∀ j a, l[j]? = some a → f (i + j) a = a) → mapIdxFrom f i l = l := by
  intro i l
  induction l generalizing i with
  | nil => intro h; rfl
  | cons a t ih =>
    intro h
    show f i a :: mapIdxFrom f (i + 1) t = a :: t
    have h0 : f i a = a := by
      have := h 0 a (by simp)
      simpa using this
    rw [h0, ih (i + 1) fun j b hb => by
      have := h (j + 1) b (by simpa using hb)
      have he : i + 1 + j = i + (j + 1) := by omega
      rw [he]
      exact this]

theorem filter_mapFlatDiffs {f : Nat → Difference → Difference}
    (hf : ∀ j d, (f j d).type = d.type) : ∀ (i : Nat) (ds : List Difference),
    (mapFlatDiffs f i ds).filter nonUnchanged = mapIdxFrom f i (ds.filter nonUnchanged) := by
  intro i ds
  induction ds generalizing i with
  | nil => rfl
  | cons d t ih =>
    cases hnu : nonUnchanged d with
    | true =>
      show (mapFlatDiffs f i (d :: t)).filter nonUnchanged = _
      rw [mapFlatDiffs]
      rw [hnu]
      simp only [if_true, reduceIte]
      rw [List.filter_cons, List.filter_cons]
      have : nonUnchanged (f i d) = true := by
        rw [nonUnchanged_type (hf i d), hnu]
      rw [this, hnu]
      simp only [if_true, reduceIte]
      show f i d :: (mapFlatDiffs f (i + 1) t).filter nonUnchanged
        = mapIdxFrom f i (d :: t.filter nonUnchanged)
      rw [ih (i + 1)]
      rfl
    | false =>
      show (mapFlatDiffs f i (d :: t)).filter nonUnchanged = _
      rw [mapFlatDiffs]
      rw [hnu]
      simp only [Bool.false_eq_true, if_false, reduceIte]
      rw [List.filter_cons, List.filter_cons]
      rw [hnu]
      simp only [Bool.false_eq_true, if_false, reduceIte]
      exact ih i

theorem flatCountDiffs_mapFlatDiffs {f : Nat → Difference → Difference}
    (hf : ∀ j d, (f j d).type = d.type) (i : Nat) (ds : List Difference) :
    flatCountDiffs (mapFlatDiffs f i ds) = flatCountDiffs ds := by
  unfold flatCountDiffs
  rw [filter_mapFlatDiffs hf, mapIdxFrom_length]

theorem flatDiffs_mapFlatHunks {f : Nat → Difference → Difference}
    (hf : ∀ j d, (f j d).type = d.type) : ∀ (i : Nat) (hs : List Hunk),
    catMap hunkFlat (mapFlatHunks f i hs) = mapIdxFrom f i (catMap hunkFlat hs) := by
  intro i hs
  induction hs generalizing i with
  | nil => rfl
  | cons hk t ih =>
    show hunkFlat { hk with diffs := mapFlatDiffs f i hk.diffs }
        ++ catMap hunkFlat (mapFlatHunks f (i + flatCountDiffs hk.diffs) t)
      = mapIdxFrom f i (hunkFlat hk ++ catMap hunkFlat t)
    rw [mapIdxFrom_append]
    have hlen : (hunkFlat hk).length = flatCountDiffs hk.diffs := rfl
    rw [hlen]
    rw [ih (i + flatCountDiffs hk.diffs)]
    show (mapFlatDiffs f i hk.diffs).filter nonUnchanged ++ _ = _
    rw [filter_mapFlatDiffs hf]
    rfl

theorem flatDiffs_mapFlatFP {f : Nat → Difference → Difference}
    (hf : ∀ j d, (f j d).type = d.type) (fp : FilePatch) :
    flatDiffsFP (mapFlatFP f fp) = mapIdxFrom f 0 (flatDiffsFP fp) :=
  flatDiffs_mapFlatHunks hf 0 fp.hunks

theorem flatGet_mapFlatFP {f : Nat → Difference → Difference}
    (hf : ∀ j d, (f j d).type = d.type) (fp : FilePatch) (j : Nat) :
    flatGetFP (mapFlatFP f fp) j = (flatGetFP fp j).map (f j) := by
  unfold flatGetFP
  rw [flatDiffs_mapFlatFP hf, mapIdxFrom_getElem]
  rw [Nat.zero_add]

theorem flatCount_mapFlatFP {f : Nat → Difference → Difference}
    (hf : ∀ j d, (f j d).type = d.type) (fp : FilePatch) :
    flatCountFP (mapFlatFP f fp) = flatCountFP fp := by
  unfold flatCountFP
  rw [flatDiffs_mapFlatFP hf, mapIdxFrom_length]

theorem mapFlatDiffs_comp {f g : Nat → Difference → Difference}
    (hg : ∀ j d, (g j d).type = d.type) : ∀ (i : Nat) (ds : List Difference),
    mapFlatDiffs f i (mapFlatDiffs g i ds) = mapFlatDiffs (fun j d => f j (g j d)) i ds := by
  intro i ds
  induction ds generalizing i with
  | nil => rfl
  | cons d t ih =>
    cases hnu : nonUnchanged d with
    | true =>
      rw [mapFlatDiffs, hnu]
      simp only [if_true, reduceIte]
      rw [mapFlatDiffs]
      have : nonUnchanged (g i d) = true := by rw [nonUnchanged_type (hg i d), hnu]
      rw [this]
      simp only [if_true, reduceIte]
      rw [ih (i + 1)]
      rw [mapFlatDiffs, hnu]
      simp only [if_true, reduceIte]
    | false =>
      rw [mapFlatDiffs, hnu]
      simp only [Bool.false_eq_true, if_false, reduceIte]
      rw [mapFlatDiffs, hnu]
      simp only [Bool.false_eq_true, if_false, reduceIte]
      rw [ih i]
      rw [mapFlatDiffs, hnu]
      simp only [Bool.false_eq_true, if_false, reduceIte]

theorem mapFlatHunks_comp {f g : Nat → Difference → Difference}
    (hg : ∀ j d, (g j d).type = d.type) : ∀ (i : Nat) (hs : List Hunk),
    mapFlatHunks f i (mapFlatHunks g i hs) = mapFlatHunks (fun j d => f j (g j d)) i hs := by
  intro i hs
  induction hs generalizing i with
  | nil => rfl
  | cons hk t ih =>
    simp only [mapFlatHunks]
    rw [flatCountDiffs_mapFlatDiffs hg, mapFlatDiffs_comp hg, ih]

theorem mapFlatFP_comp {f g : Nat → Difference → Difference}
    (hg : ∀ j d, (g j d).type = d.type) (fp : FilePatch) :
    mapFlatFP f (mapFlatFP g fp) = mapFlatFP (fun j d => f j (g j d)) fp := by
  unfold mapFlatFP
  rw [mapFlatHunks_comp hg]

theorem mapFlatDiffs_congr {f g : Nat → Difference → Difference}
    (h : ∀ j d, f j d = g j d) : ∀ (i : Nat) (ds : List Difference),
    mapFlatDiffs f i ds = mapFlatDiffs g i ds := by
  intro i ds
  induction ds generalizing i with
  | nil => rfl
  | cons d t ih =>
    cases hnu : nonUnchanged d with
    | true =>
      rw [mapFlatDiffs, hnu]
      rw [mapFlatDiffs, hnu]
      simp only [if_true, reduceIte]
      rw [h, ih (i + 1)]
    | false =>
      rw [mapFlatDiffs, hnu]
      rw [mapFlatDiffs, hnu]
      simp only [Bool.false_eq_true, if_false, reduceIte]
      rw [ih i]

theorem mapFlatHunks_congr {f g : Nat → Difference → Difference}
    (h : ∀ j d, f j d = g j d) : ∀ (i : Nat) (hs : List Hunk),
    mapFlatHunks f i hs = mapFlatHunks g i hs := by
  intro i hs
  induction hs generalizing i with
  | nil => rfl
  | cons hk t ih =>
    simp only [mapFlatHunks]
    rw [mapFlatDiffs_congr h, ih]

theorem mapFlatFP_congr {f g : Nat → Difference → Difference}
    (h : ∀ j d, f j d = g j d) (fp : FilePatch) :
    mapFlatFP f fp = mapFlatFP g fp := by
  unfold mapFlatFP
  rw [mapFlatHunks_congr h]

theorem mapFlatDiffs_id {f : Nat → Difference → Difference} :
    ∀ (i : Nat) (ds : List Difference),
    (∀ k d, (ds.filter nonUnchanged)[k]? = some d → f (i + k) d = d) →
    mapFlatDiffs f i ds = ds := by
  intro i ds
  induction ds generalizing i with
  | nil => intro h; rfl
  | cons d t ih =>
    intro h
    cases hnu : nonUnchanged d with
    | true =>
      rw [mapFlatDiffs, hnu]
      simp only [if_true, reduceIte]
      have hfilter : (d :: t).filter nonUnchanged = d :: t.filter nonUnchanged := by
        rw [List.filter_cons, hnu]
        simp
      have h0 : f i d = d := by
        have := h 0 d (by rw [hfilter]; simp)
        simpa using this
      rw [h0]
      rw [ih (i + 1) fun k e he => by
        have := h (k + 1) e (by rw [hfilter]; simpa using he)
        have harith : i + 1 + k = i + (k + 1) := by omega
        rw [harith]
        exact this]
    | false =>
      rw [mapFlatDiffs, hnu]
      simp only [Bool.false_eq_true, if_false, reduceIte]
      have hfilter : (d :: t).filter nonUnchanged = t.filter nonUnchanged := by
        rw [List.filter_cons, hnu]
        simp
      rw [ih i fun k e he => h k e (by rw [hfilter]; exact he)]

theorem mapFlatHunks_id {f : Nat → Difference → Difference} :
    ∀ (i : Nat) (hs : List Hunk),
    (∀ k d, (catMap hunkFlat hs)[k]? = some d → f (i + k) d = d) →
    mapFlatHunks f i hs = hs := by
  intro i hs
  induction hs generalizing i with
  | nil => intro h; rfl
  | cons hk t ih =>
    intro h
    show { hk with diffs := mapFlatDiffs f i hk.diffs }
        :: mapFlatHunks f (i + flatCountDiffs hk.diffs) t = hk :: t
    have hcat : ∀ k, (catMap hunkFlat (hk :: t))[k]?
        = if k < (hunkFlat hk).length then (hunkFlat hk)[k]?
          else (catMap hunkFlat t)[k - (hunkFlat hk).length]? := by
      intro k
      show (hunkFlat hk ++ catMap hunkFlat t)[k]? = _
      rw [List.getElem?_append]
    have hdiffs : mapFlatDiffs f i hk.diffs = hk.diffs := by
      apply mapFlatDiffs_id
      intro k d hd
      apply h k d
      have hk2 : k < (hunkFlat hk).length := by
        by_contra hk3
        have hnone : (hunkFlat hk)[k]? = none :=
          List.getElem?_eq_none (by omega : (hunkFlat hk).length ≤ k)
        have : (hunkFlat hk)[k]? = some d := hd
        rw [hnone] at this
        simp at this
      rw [hcat k, if_pos hk2]
      exact hd
    rw [hdiffs]
    rw [ih (i + flatCountDiffs hk.diffs) fun k d hd => by
      have hsome := h ((hunkFlat hk).length + k) d (by
        rw [hcat ((hunkFlat hk).length + k)]
        rw [if_neg (by omega : ¬((hunkFlat hk).length + k < (hunkFlat hk).length))]
        have he : (hunkFlat hk).length + k - (hunkFlat hk).length = k := by omega
        rw [he]
        exact hd)
      have harith : i + flatCountDiffs hk.diffs + k = i + ((hunkFlat hk).length + k) := by
        have : flatCountDiffs hk.diffs = (hunkFlat hk).length := rfl
        omega
      rw [harith]
      exact hsome]

theorem mapFlatFP_id {f : Nat → Difference → Difference} {fp : FilePatch}
    (h : ∀ k d, flatGetFP fp k = some d → f k d = d) : mapFlatFP f fp = fp := by
  unfold mapFlatFP
  have : mapFlatHunks f 0 fp.hunks = fp.hunks := by
    apply mapFlatHunks_id
    intro k d hd
    have := h k d hd
    rw [Nat.zero_add]
    exact this
  rw [this]

theorem setApplied_unset {d : Difference} (h : d.applied = false) :
    { d with applied := false } = d := by
  obtain ⟨ty, sl, dl, ap, cf⟩ := d
  simp only [] at h
  rw [h]

theorem setAppliedAt_cancel (i : Nat) : ∀ j e,
    setAppliedAt i false j (setAppliedAt i true j e) = setAppliedAt i false j e := by
  intro j e
  unfold setAppliedAt
  by_cases h : j = i
  · rw [if_pos h, if_pos h, if_pos h]
  · rw [if_neg h, if_neg h, if_neg h]

/-- The single-difference involution: a successful apply is undone exactly
by unapply, restoring the whole FilePatch (flags and all derived line
numbers). -/
theorem apply_unapply_single {fp : FilePatch} {i : Nat} {fp2 : FilePatch}
    (h : applyDifferenceFP fp i = .ok fp2) : unapplyDifferenceFP fp2 i = .ok fp := by
  unfold applyDifferenceFP at h
  cases hget : flatGetFP fp i with
  | none => rw [hget] at h; simp at h
  | some d =>
    rw [hget] at h
    dsimp only [] at h
    cases hap : d.applied with
    | true => rw [hap] at h; simp at h
    | false =>
      rw [hap] at h
      cases hcf : d.conflict with
      | true => rw [hcf] at h; simp at h
      | false =>
        rw [hcf] at h
        simp only [Bool.false_eq_true, if_false, reduceIte] at h
        injection h with h2
        unfold unapplyDifferenceFP
        have hget2 : flatGetFP fp2 i = some { d with applied := true } := by
          rw [← h2, flatGet_mapFlatFP (setAppliedAt_type i true), hget]
          show some (setAppliedAt i true i d) = _
          unfold setAppliedAt
          rw [if_pos rfl]
        rw [hget2]
        dsimp only []
        rw [hcf]
        simp only [Bool.not_true, Bool.false_eq_true, if_false, reduceIte]
        rw [← h2]
        rw [mapFlatFP_comp (setAppliedAt_type i true)]
        rw [mapFlatFP_congr (setAppliedAt_cancel i)]
        rw [mapFlatFP_id fun k e hk => by
          unfold setAppliedAt
          by_cases hki : k = i
          · subst hki
            rw [hget] at hk
            injection hk with hk2
            subst hk2
            rw [if_pos rfl]
            exact setApplied_unset hap
          · rw [if_neg hki]]

/-! ### Bulk apply / unapply -/

theorem getElem?_lt_of_some {l : List α} {k : Nat} {a : α} (h : l[k]? = some a) :
    k < l.length := by
  by_contra hk
  rw [List.getElem?_eq_none (by omega : l.length ≤ k)] at h
  simp at h

theorem setFrom_step_true (k : Nat) : ∀ (j : Nat) (e : Difference),
    (if k + 1 ≤ j then { (setAppliedAt k true j e) with applied := true }
     else setAppliedAt k true j e)
    = if k ≤ j then { e with applied := true } else e := by
  intro j e
  unfold setAppliedAt
  by_cases h1 : k + 1 ≤ j
  · rw [if_pos h1, if_neg (by omega : ¬(j = k)), if_pos (by omega : k ≤ j)]
  · by_cases h2 : j = k
    · rw [if_neg h1, if_pos h2, if_pos (by omega : k ≤ j)]
    · rw [if_neg h1, if_neg h2, if_neg (by omega : ¬(k ≤ j))]

theorem setFrom_step_false (k : Nat) : ∀ (j : Nat) (e : Difference),
    (if k + 1 ≤ j then { (setAppliedAt k false j e) with applied := false }
     else setAppliedAt k false j e)
    = if k ≤ j then { e with applied := false } else e := by
  intro j e
  unfold setAppliedAt
  by_cases h1 : k + 1 ≤ j
  · rw [if_pos h1, if_neg (by omega : ¬(j = k)), if_pos (by omega : k ≤ j)]
  · by_cases h2 : j = k
    · rw [if_neg h1, if_pos h2, if_pos (by omega : k ≤ j)]
    · rw [if_neg h1, if_neg h2, if_neg (by omega : ¬(k ≤ j))]

theorem applyAllGo_saturate : ∀ (fuel k : Nat) (fp : FilePatch),
    (∀ j d, k ≤ j → flatGetFP fp j = some d → d.applied = false ∧ d.conflict = false) →
    k + fuel = flatCountFP fp →
    applyAllGo applyDifferenceFP k fuel fp
      = (none, mapFlatFP (fun j d => if k ≤ j then { d with applied := true } else d) fp) := by
  intro fuel
  induction fuel with
  | zero =>
    intro k fp hflags hcount
    show (none, fp) = _
    rw [mapFlatFP_id fun j d hj => by
      have hlt : j < flatCountFP fp := by
        unfold flatGetFP at hj
        exact getElem?_lt_of_some hj
      rw [if_neg (by omega : ¬(k ≤ j))]]
  | succ f ih =>
    intro k fp hflags hcount
    have hk2 : k < (flatDiffsFP fp).length := by
      have : flatCountFP fp = (flatDiffsFP fp).length := rfl
      omega
    have hget : flatGetFP fp k = some ((flatDiffsFP fp)[k]) := by
      unfold flatGetFP
      exact List.getElem?_eq_getElem hk2
    obtain ⟨hap, hcf⟩ := hflags k _ (Nat.le_refl k) hget
    have happ : applyDifferenceFP fp k
        = .ok (mapFlatFP (setAppliedAt k true) fp) := by
      unfold applyDifferenceFP
      rw [hget]
      dsimp only []
      rw [hap, hcf]
      simp
    show (match applyDifferenceFP fp k with
      | .error e => (some e, fp)
      | .ok fp2 => applyAllGo applyDifferenceFP (k + 1) f fp2) = _
    rw [happ]
    dsimp only []
    rw [ih (k + 1) (mapFlatFP (setAppliedAt k true) fp)
      (by
        intro j d hj hjget
        rw [flatGet_mapFlatFP (setAppliedAt_type k true)] at hjget
        cases hfpj : flatGetFP fp j with
        | none => rw [hfpj] at hjget; simp at hjget
        | some e =>
          rw [hfpj] at hjget
          have hje : setAppliedAt k true j e = d := by
            injection hjget with hq
          rw [← hje]
          unfold setAppliedAt
          rw [if_neg (by omega : ¬(j = k))]
          exact hflags j e (by omega) hfpj)
      (by rw [flatCount_mapFlatFP (setAppliedAt_type k true)]; omega)]
    rw [mapFlatFP_comp (setAppliedAt_type k true)]
    rw [mapFlatFP_congr (setFrom_step_true k)]

theorem unapplyAllGo_saturate : ∀ (fuel k : Nat) (fp : FilePatch),
    (∀ j d, k ≤ j → flatGetFP fp j = some d → d.applied = true ∧ d.conflict = false) →
    k + fuel = flatCountFP fp →
    applyAllGo unapplyDifferenceFP k fuel fp
      = (none, mapFlatFP (fun j d => if k ≤ j then { d with applied := false } else d) fp) := by
  intro fuel
  induction fuel with
  | zero =>
    intro k fp hflags hcount
    show (none, fp) = _
    rw [mapFlatFP_id fun j d hj => by
      have hlt : j < flatCountFP fp := by
        unfold flatGetFP at hj
        exact getElem?_lt_of_some hj
      rw [if_neg (by omega : ¬(k ≤ j))]]
  | succ f ih =>
    intro k fp hflags hcount
    have hk2 : k < (flatDiffsFP fp).length := by
      have : flatCountFP fp = (flatDiffsFP fp).length := rfl
      omega
    have hget : flatGetFP fp k = some ((flatDiffsFP fp)[k]) := by
      unfold flatGetFP
      exact List.getElem?_eq_getElem hk2
    obtain ⟨hap, hcf⟩ := hflags k _ (Nat.le_refl k) hget
    have happ : unapplyDifferenceFP fp k
        = .ok (mapFlatFP (setAppliedAt k false) fp) := by
      unfold unapplyDifferenceFP
      rw [hget]
      dsimp only []
      rw [hap, hcf]
      simp
    show (match unapplyDifferenceFP fp k with
      | .error e => (some e, fp)
      | .ok fp2 => applyAllGo unapplyDifferenceFP (k + 1) f fp2) = _
    rw [happ]
    dsimp only []
    rw [ih (k + 1) (mapFlatFP (setAppliedAt k false) fp)
      (by
        intro j d hj hjget
        rw [flatGet_mapFlatFP (setAppliedAt_type k false)] at hjget
        cases hfpj : flatGetFP fp j with
        | none => rw [hfpj] at hjget; simp at hjget
        | some e =>
          rw [hfpj] at hjget
          have hje : setAppliedAt k false j e = d := by
            injection hjget with hq
          rw [← hje]
          unfold setAppliedAt
          rw [if_neg (by omega : ¬(j = k))]
          exact hflags j e (by omega) hfpj)
      (by rw [flatCount_mapFlatFP (setAppliedAt_type k false)]; omega)]
    rw [mapFlatFP_comp (setAppliedAt_type k false)]
    rw [mapFlatFP_congr (setFrom_step_false k)]

theorem mem_of_getElem_some {l : List α} {k : Nat} {a : α} (h : l[k]? = some a) :
    a ∈ l := by
  induction l generalizing k with
  | nil => simp at h
  | cons b t ih =>
    cases k with
    | zero =>
      rw [List.getElem?_cons_zero] at h
      injection h with h2
      rw [← h2]
      simp
    | succ k2 =>
      rw [List.getElem?_cons_succ] at h
      exact List.mem_cons_of_mem _ (ih h)

theorem flag_of_flatGet {fp : FilePatch} {j : Nat} {d : Difference}
    (hj : flatGetFP fp j = some d) : d ∈ flatDiffsFP fp := by
  unfold flatGetFP at hj
  exact mem_of_getElem_some hj

/-- C2 (as amended): a successful single apply is inverted exactly by
unapply, restoring the applied flag and every recorded line number (the
whole FilePatch state); and apply-all followed by unapply-all returns
every Difference's applied flag to false and all line-number state to the
pre-apply baseline, for any FilePatch with no conflicted Differences all
of whose Differences start unapplied. -/
theorem c2_apply_unapply_inverse :
    (∀ (fp : FilePatch) (i : Nat) (fp2 : FilePatch),
        applyDifferenceFP fp i = .ok fp2 → unapplyDifferenceFP fp2 i = .ok fp) ∧
    (∀ fp : FilePatch, noConflictsFP fp = true → allUnappliedFP fp = true →
        (applyAllFP fp).1 = none ∧ unapplyAllFP (applyAllFP fp).2 = (none, fp)) := by
  constructor
  · intro fp i fp2 h
    exact apply_unapply_single h
  · intro fp hnc hau
    have hflags : ∀ j d, 0 ≤ j → flatGetFP fp j = some d →
        d.applied = false ∧ d.conflict = false := by
      intro j d hj hget
      have hmem := flag_of_flatGet hget
      constructor
      · have := List.all_eq_true.1 hau d hmem
        simp at this
        exact this
      · have := List.all_eq_true.1 hnc d hmem
        simp at this
        exact this
    have happ := applyAllGo_saturate (flatCountFP fp) 0 fp hflags (by omega)
    have happ2 : applyAllFP fp
        = (none, mapFlatFP (fun j d => { d with applied := true }) fp) := by
      unfold applyAllFP
      rw [happ]
      rw [mapFlatFP_congr fun j d => by
        rw [if_pos (by omega : 0 ≤ j)]]
    refine ⟨by rw [happ2], ?_⟩
    rw [happ2]
    show unapplyAllFP (mapFlatFP (fun j d => { d with applied := true }) fp) = (none, fp)
    have htp : ∀ (j : Nat) (d : Difference),
        (({ d with applied := true } : Difference)).type = d.type := fun j d => rfl
    have hflags2 : ∀ j d, 0 ≤ j →
        flatGetFP (mapFlatFP (fun j d => { d with applied := true }) fp) j = some d →
        d.applied = true ∧ d.conflict = false := by
      intro j d hj hget
      rw [flatGet_mapFlatFP htp] at hget
      cases hfpj : flatGetFP fp j with
      | none => rw [hfpj] at hget; simp at hget
      | some e =>
        rw [hfpj] at hget
        have hje : ({ e with applied := true } : Difference) = d := by
          injection hget with hq
        rw [← hje]
        exact ⟨rfl, (hflags j e (by omega) hfpj).2⟩
    have hcnt : flatCountFP (mapFlatFP (fun j d => { d with applied := true }) fp)
        = flatCountFP fp := flatCount_mapFlatFP htp fp
    unfold unapplyAllFP
    rw [hcnt]
    rw [unapplyAllGo_saturate (flatCountFP fp) 0 _ hflags2 (by rw [hcnt]; omega)]
    rw [mapFlatFP_comp htp]
    rw [mapFlatFP_congr fun j d => by
      rw [if_pos (by omega : 0 ≤ j)]]
    rw [mapFlatFP_id fun k d hk => setApplied_unset (hflags k d (by omega) hk).1]

/-- Witness for C2 at the §8 scenario FilePatch. -/
theorem c2_apply_unapply_inverse_witness :
    applyDifferenceFP fpC8f0 0 = .ok fpC8f0app ∧
    unapplyDifferenceFP fpC8f0app 0 = .ok fpC8f0 ∧
    noConflictsFP fpC8f0 = true ∧ allUnappliedFP fpC8f0 = true ∧
    (applyAllFP fpC8f0).1 = none ∧ unapplyAllFP (applyAllFP fpC8f0).2 = (none, fpC8f0) :=
  ⟨rfl, c2_apply_unapply_inverse.1 fpC8f0 0 fpC8f0app rfl, rfl, rfl,
    (c2_apply_unapply_inverse.2 fpC8f0 rfl rfl).1,
    (c2_apply_unapply_inverse.2 fpC8f0 rfl rfl).2⟩

/-- Counterexample to C2 as stated: `fpC2ce` has no conflicted Differences,
yet apply-all (which stops at its first step, an already-applied
Difference) followed by unapply-all (which stops at the second, already
unapplied Difference) leaves the third Difference's applied flag true. -/
theorem c2_counterexample :
    noConflictsFP fpC2ce = true ∧
    ((flatGetFP (unapplyAllFP (applyAllFP fpC2ce).2).2 2).map fun d => d.applied)
      = some true :=
  ⟨rfl, rfl⟩

/-! ### C4: error conditions of apply / unapply -/

theorem flatGet_none_iff (fp : FilePatch) (i : Nat) :
    flatGetFP fp i = none ↔ flatCountFP fp ≤ i := by
  constructor
  · intro h
    by_contra hlt
    have hi : i < (flatDiffsFP fp).length := by
      have : flatCountFP fp = (flatDiffsFP fp).length := rfl
      omega
    rw [show flatGetFP fp i = (flatDiffsFP fp)[i]? from rfl,
      List.getElem?_eq_getElem hi] at h
    simp at h
  · intro h
    rw [show flatGetFP fp i = (flatDiffsFP fp)[i]? from rfl]
    exact List.getElem?_eq_none h

theorem applyFP_characterize (fp : FilePatch) (i : Nat) :
    (flatCountFP fp ≤ i ∧ applyDifferenceFP fp i = .error .indexError) ∨
    (i < flatCountFP fp ∧ (appliedAtB fp i = true ∨ conflictAtB fp i = true) ∧
      applyDifferenceFP fp i = .error .stateError) ∨
    (i < flatCountFP fp ∧ appliedAtB fp i = false ∧ conflictAtB fp i = false ∧
      applyDifferenceFP fp i = .ok (mapFlatFP (setAppliedAt i true) fp)) := by
  cases hget : flatGetFP fp i with
  | none =>
    left
    refine ⟨(flatGet_none_iff fp i).1 hget, ?_⟩
    unfold applyDifferenceFP
    rw [hget]
  | some d =>
    have hlt : i < flatCountFP fp := by
      unfold flatGetFP at hget
      exact getElem?_lt_of_some hget
    have hab : appliedAtB fp i = d.applied := by
      unfold appliedAtB
      rw [hget]
      rfl
    have hcb : conflictAtB fp i = d.conflict := by
      unfold conflictAtB
      rw [hget]
      rfl
    cases hap : d.applied with
    | true =>
      right
      left
      refine ⟨hlt, Or.inl (by rw [hab, hap]), ?_⟩
      unfold applyDifferenceFP
      rw [hget]
      dsimp only []
      rw [hap]
      simp
    | false =>
      cases hcf : d.conflict with
      | true =>
        right
        left
        refine ⟨hlt, Or.inr (by rw [hcb, hcf]), ?_⟩
        unfold applyDifferenceFP
        rw [hget]
        dsimp only []
        rw [hap, hcf]
        simp
      | false =>
        right
        right
        refine ⟨hlt, by rw [hab, hap], by rw [hcb, hcf], ?_⟩
        unfold applyDifferenceFP
        rw [hget]
        dsimp only []
        rw [hap, hcf]
        simp

theorem unapplyFP_characterize (fp : FilePatch) (i : Nat) :
    (flatCountFP fp ≤ i ∧ unapplyDifferenceFP fp i = .error .indexError) ∨
    (i < flatCountFP fp ∧ (appliedAtB fp i = false ∨ conflictAtB fp i = true) ∧
      unapplyDifferenceFP fp i = .error .stateError) ∨
    (i < flatCountFP fp ∧ appliedAtB fp i = true ∧ conflictAtB fp i = false ∧
      unapplyDifferenceFP fp i = .ok (mapFlatFP (setAppliedAt i false) fp)) := by
  cases hget : flatGetFP fp i with
  | none =>
    left
    refine ⟨(flatGet_none_iff fp i).1 hget, ?_⟩
    unfold unapplyDifferenceFP
    rw [hget]
  | some d =>
    have hlt : i < flatCountFP fp := by
      unfold flatGetFP at hget
      exact getElem?_lt_of_some hget
    have hab : appliedAtB fp i = d.applied := by
      unfold appliedAtB
      rw [hget]
      rfl
    have hcb : conflictAtB fp i = d.conflict := by
      unfold conflictAtB
      rw [hget]
      rfl
    cases hap : d.applied with
    | false =>
      right
      left
      refine ⟨hlt, Or.inl (by rw [hab, hap]), ?_⟩
      unfold unapplyDifferenceFP
      rw [hget]
      dsimp only []
      rw [hap]
      simp
    | true =>
      cases hcf : d.conflict with
      | true =>
        right
        left
        refine ⟨hlt, Or.inr (by rw [hcb, hcf]), ?_⟩
        unfold unapplyDifferenceFP
        rw [hget]
        dsimp only []
        rw [hap, hcf]
        simp
      | false =>
        right
        right
        refine ⟨hlt, by rw [hab, hap], by rw [hcb, hcf], ?_⟩
        unfold unapplyDifferenceFP
        rw [hget]
        dsimp only []
        rw [hap, hcf]
        simp

/-- C4: `rcompare_apply_difference` fails, returning -1 and leaving the
whole object graph unchanged, exactly when the flat index is out of range
(in which case the engine reports an IndexError), the Difference is
already applied, or it is in conflict; `rcompare_unapply_difference`
mirrors this with already-unapplied in place of already-applied. -/
theorem c4_apply_error_conditions :
    ∀ (ps : PatchSet) (fi i : Nat) (fp : FilePatch), ps.files[fi]? = some fp →
      (((rcompare_apply_difference (some ps) fi i).1 = -1 ↔
          flatCountFP fp ≤ i ∨ appliedAtB fp i = true ∨ conflictAtB fp i = true) ∧
        ((rcompare_apply_difference (some ps) fi i).1 = -1 →
          (rcompare_apply_difference (some ps) fi i).2 = some ps) ∧
        (flatCountFP fp ≤ i → applyDifferencePS ps fi i = .error .indexError)) ∧
      (((rcompare_unapply_difference (some ps) fi i).1 = -1 ↔
          flatCountFP fp ≤ i ∨ appliedAtB fp i = false ∨ conflictAtB fp i = true) ∧
        ((rcompare_unapply_difference (some ps) fi i).1 = -1 →
          (rcompare_unapply_difference (some ps) fi i).2 = some ps) ∧
        (flatCountFP fp ≤ i → unapplyDifferencePS ps fi i = .error .indexError)) := by
  intro ps fi i fp hfp
  constructor
  · rcases applyFP_characterize fp i with ⟨hle, herr⟩ | ⟨hlt, hor, herr⟩ | ⟨hlt, hab, hcb, hok⟩
    · have hps : applyDifferencePS ps fi i = .error .indexError := by
        unfold applyDifferencePS
        rw [hfp]
        dsimp only []
        rw [herr]
      have hw : rcompare_apply_difference (some ps) fi i = (-1, some ps) := by
        unfold rcompare_apply_difference
        dsimp only []
        rw [hps]
      refine ⟨by rw [hw]; exact ⟨fun _ => Or.inl hle, fun _ => rfl⟩, by rw [hw]; intro; rfl,
        fun _ => hps⟩
    · have hps : applyDifferencePS ps fi i = .error .stateError := by
        unfold applyDifferencePS
        rw [hfp]
        dsimp only []
        rw [herr]
      have hw : rcompare_apply_difference (some ps) fi i = (-1, some ps) := by
        unfold rcompare_apply_difference
        dsimp only []
        rw [hps]
      refine ⟨by rw [hw]; exact ⟨fun _ => Or.inr hor, fun _ => rfl⟩, by rw [hw]; intro; rfl,
        fun hle => by omega⟩
    · have hps : applyDifferencePS ps fi i
          = .ok (updateFile ps fi (mapFlatFP (setAppliedAt i true) fp)) := by
        unfold applyDifferencePS
        rw [hfp]
        dsimp only []
        rw [hok]
      have hw : rcompare_apply_difference (some ps) fi i
          = (0, some (updateFile ps fi (mapFlatFP (setAppliedAt i true) fp))) := by
        unfold rcompare_apply_difference
        dsimp only []
        rw [hps]
      refine ⟨?_, ?_, fun hle => by omega⟩
      · rw [hw]
        constructor
        · intro h0
          simp at h0
        · intro hor
          rcases hor with h | h | h
          · omega
          · rw [hab] at h
            simp at h
          · rw [hcb] at h
            simp at h
      · rw [hw]
        intro h0
        simp at h0
  · rcases unapplyFP_characterize fp i with ⟨hle, herr⟩ | ⟨hlt, hor, herr⟩ | ⟨hlt, hab, hcb, hok⟩
    · have hps : unapplyDifferencePS ps fi i = .error .indexError := by
        unfold unapplyDifferencePS
        rw [hfp]
        dsimp only []
        rw [herr]
      have hw : rcompare_unapply_difference (some ps) fi i = (-1, some ps) := by
        unfold rcompare_unapply_difference
        dsimp only []
        rw [hps]
      refine ⟨by rw [hw]; exact ⟨fun _ => Or.inl hle, fun _ => rfl⟩, by rw [hw]; intro; rfl,
        fun _ => hps⟩
    · have hps : unapplyDifferencePS ps fi i = .error .stateError := by
        unfold unapplyDifferencePS
        rw [hfp]
        dsimp only []
        rw [herr]
      have hw : rcompare_unapply_difference (some ps) fi i = (-1, some ps) := by
        unfold rcompare_unapply_difference
        dsimp only []
        rw [hps]
      refine ⟨by rw [hw]; exact ⟨fun _ => Or.inr hor, fun _ => rfl⟩, by rw [hw]; intro; rfl,
        fun hle => by omega⟩
    · have hps : unapplyDifferencePS ps fi i
          = .ok (updateFile ps fi (mapFlatFP (setAppliedAt i false) fp)) := by
        unfold unapplyDifferencePS
        rw [hfp]
        dsimp only []
        rw [hok]
      have hw : rcompare_unapply_difference (some ps) fi i
          = (0, some (updateFile ps fi (mapFlatFP (setAppliedAt i false) fp))) := by
        unfold rcompare_unapply_difference
        dsimp only []
        rw [hps]
      refine ⟨?_, ?_, fun hle => by omega⟩
      · rw [hw]
        constructor
        · intro h0
          simp at h0
        · intro hor
          rcases hor with h | h | h
          · omega
          · rw [hab] at h
            simp at h
          · rw [hcb] at h
            simp at h
      · rw [hw]
        intro h0
        simp at h0

/-- Witness for C4 at the §8 scenario PatchSet, flat index 5 (out of range:
the file has one non-Unchanged Difference). -/
theorem c4_apply_error_conditions_witness :
    psC8.files[0]? = some fpC8f0 ∧
    rcompare_apply_difference (some psC8) 0 5 = (-1, some psC8) ∧
    applyDifferencePS psC8 0 5 = .error .indexError ∧
    rcompare_unapply_difference (some psC8) 0 5 = (-1, some psC8) := by
  have h := c4_apply_error_conditions psC8 0 5 fpC8f0 rfl
  refine ⟨rfl, ?_, h.1.2.2 (by decide), ?_⟩
  · have h1 := (h.1.1).2 (Or.inl (by decide))
    have h2 := h.1.2.1 h1
    cases hr : rcompare_apply_difference (some psC8) 0 5 with
    | mk c s =>
      rw [hr] at h1 h2
      simp only [] at h1 h2
      rw [h1, h2]
  · have h1 := (h.2.1).2 (Or.inl (by decide))
    have h2 := h.2.2.1 h1
    cases hr : rcompare_unapply_difference (some psC8) 0 5 with
    | mk c s =>
      rw [hr] at h1 h2
      simp only [] at h1 h2
      rw [h1, h2]

/-! ### C3: successful blend yields a gapless destination cover -/

theorem getElem?_set_self {α : Type} :
    ∀ (l : List α) (i : Nat) (a : α), i < l.length → (l.set i a)[i]? = some a := by
  intro l
  induction l with
  | nil =>
    intro i a h
    simp at h
  | cons x t ih =>
    intro i a h
    cases i with
    | zero => simp
    | succ n =>
      have hn : n < t.length := by
        simp at h
        omega
      show (x :: t.set n a)[n + 1]? = some a
      rw [List.getElem?_cons_succ]
      exact ih n a hn

theorem updateFile_getElem {ps : PatchSet} {fi : Nat} {fp : FilePatch}
    (fp2 : FilePatch) (h : ps.files[fi]? = some fp) :
    (updateFile ps fi fp2).files[fi]? = some fp2 :=
  getElem?_set_self ps.files fi fp2 (getElem?_lt_of_some h)

theorem is_blended_of_get {ps : PatchSet} {fi : Nat} {fp : FilePatch}
    (h : ps.files[fi]? = some fp) (hb : fp.blended = true) :
    rcompare_filepatch_is_blended (some ps) fi = 1 := by
  show ((ps.files[fi]?).map fun q => if q.blended then (1 : Nat) else 0).getD 0 = 1
  rw [h]
  show (if fp.blended then (1 : Nat) else 0) = 1
  rw [hb]
  rfl

theorem blendGo_covers {total : Nat} {lines : List Chars} :
    ∀ {hs : List Hunk} {pos : Nat} {hs2 : List Hunk},
    blendGo total lines pos hs = .ok hs2 → coversFromB total pos hs2 = true := by
  intro hs
  induction hs with
  | nil =>
    intro pos hs2 h
    rw [blendGo] at h
    by_cases h1 : pos = total + 1
    · rw [if_pos h1] at h
      injection h with h2
      rw [← h2]
      show (pos == total + 1) = true
      exact beq_iff_eq.mpr h1
    · rw [if_neg h1] at h
      by_cases h2 : pos ≤ total
      · rw [if_pos h2] at h
        injection h with h3
        rw [← h3]
        show ((pos == pos) && ((pos + (total + 1 - pos)) == total + 1)) = true
        have he : pos + (total + 1 - pos) = total + 1 := by omega
        rw [he]
        simp
      · rw [if_neg h2] at h
        simp at h
  | cons hk t ih =>
    intro pos hs2 h
    rw [blendGo] at h
    by_cases h1 : hk.destStart < pos
    · rw [if_pos h1] at h
      simp at h
    · rw [if_neg h1] at h
      by_cases h2 : total + 1 < hk.destStart + hk.destCount
      · rw [if_pos h2] at h
        simp at h
      · rw [if_neg h2] at h
        cases hgo : blendGo total lines (hk.destStart + hk.destCount) t with
        | error e =>
          rw [hgo] at h
          simp at h
        | ok hs0 =>
          rw [hgo] at h
          dsimp only [] at h
          have hrec := ih hgo
          by_cases h3 : pos < hk.destStart
          · rw [if_pos h3] at h
            injection h with h4
            rw [← h4]
            show ((pos == pos)
              && coversFromB total (pos + (hk.destStart - pos)) (hk :: hs0)) = true
            have he : pos + (hk.destStart - pos) = hk.destStart := by omega
            rw [he]
            show ((pos == pos) && ((hk.destStart == hk.destStart)
              && coversFromB total (hk.destStart + hk.destCount) hs0)) = true
            rw [hrec]
            simp
          · rw [if_neg h3] at h
            injection h with h4
            rw [← h4]
            show ((hk.destStart == pos)
              && coversFromB total (hk.destStart + hk.destCount) hs0) = true
            have heq : hk.destStart = pos := by omega
            rw [heq] at hrec ⊢
            rw [hrec]
            simp

/-- C3: whenever `rcompare_blend_file` succeeds, the resulting FilePatch's
hunks' destination ranges form a contiguous non-overlapping cover of
`[1, number of lines of the original content]`, its blended flag is set,
and `rcompare_filepatch_is_blended` returns 1 on it. -/
theorem c3_blend_gapless_cover :
    ∀ (ps : PatchSet) (fi : Nat) (content : Chars) (ps2 : PatchSet),
      rcompare_blend_file (some ps) fi content = (0, some ps2) →
      ∃ fp2, ps2.files[fi]? = some fp2 ∧
        coversFromB (splitLines content).length 1 fp2.hunks = true ∧
        fp2.blended = true ∧
        rcompare_filepatch_is_blended (some ps2) fi = 1 := by
  intro ps fi content ps2 h
  unfold rcompare_blend_file at h
  dsimp only [] at h
  cases hfp : ps.files[fi]? with
  | none =>
    rw [hfp] at h
    injection h with h1 h2
    exact absurd h1 (by decide)
  | some fp =>
    rw [hfp] at h
    dsimp only [] at h
    cases hbl : blendFP fp content with
    | error e =>
      rw [hbl] at h
      injection h with h1 h2
      exact absurd h1 (by decide)
    | ok fp2 =>
      rw [hbl] at h
      dsimp only [] at h
      injection h with h1 h2
      injection h2 with h3
      subst h3
      unfold blendFP at hbl
      by_cases hb : fp.blended
      · rw [if_pos hb] at hbl
        simp at hbl
      · rw [if_neg hb] at hbl
        cases hgo : blendGo (splitLines content).length (splitLines content) 1 fp.hunks with
        | error e =>
          rw [hgo] at hbl
          simp at hbl
        | ok hs =>
          rw [hgo] at hbl
          dsimp only [] at hbl
          injection hbl with h5
          subst h5
          have hget := updateFile_getElem
            { fp with hunks := hs, blended := true } hfp
          exact ⟨_, hget, blendGo_covers hgo, rfl, is_blended_of_get hget rfl⟩

/-- Witness for C3 at the blend example of examples/patch_apply.c. -/
theorem c3_blend_gapless_cover_witness :
    rcompare_blend_file (some psBlend) 0 origBlend = (0, some psBlended) ∧
    (∃ fp2, psBlended.files[0]? = some fp2 ∧
      coversFromB (splitLines origBlend).length 1 fp2.hunks = true ∧
      fp2.blended = true ∧
      rcompare_filepatch_is_blended (some psBlended) 0 = 1) :=
  ⟨rfl, c3_blend_gapless_cover psBlend 0 origBlend psBlended rfl⟩

/-! ### C6: blend failure modes -/

theorem blendGo_beyond {total : Nat} (lines : List Chars) :
    ∀ {hs : List Hunk}, (∃ hk ∈ hs, total + 1 < hk.destStart + hk.destCount) →
    ∀ pos, blendGo total lines pos hs = .error .contentMismatchError := by
  intro hs
  induction hs with
  | nil =>
    intro h pos
    rcases h with ⟨hk, hm, _⟩
    simp at hm
  | cons hd t ih =>
    intro h pos
    rw [blendGo]
    by_cases h1 : hd.destStart < pos
    · rw [if_pos h1]
    · rw [if_neg h1]
      by_cases h2 : total + 1 < hd.destStart + hd.destCount
      · rw [if_pos h2]
      · rw [if_neg h2]
        rcases h with ⟨hk, hm, hbey⟩
        rcases List.mem_cons.mp hm with heq | hmt
        · subst heq
          omega
        · rw [ih ⟨hk, hmt, hbey⟩ (hd.destStart + hd.destCount)]

/-- C6: blending an already-blended FilePatch is an error that leaves
the handle state unchanged; and when the original content is too short
for a hunk's declared destination range, blend fails with a
ContentMismatchError, the handle state is unchanged, and the FilePatch
remains unblended. -/
theorem c6_blend_failures :
    ∀ (ps : PatchSet) (fi : Nat) (content : Chars) (fp : FilePatch),
      ps.files[fi]? = some fp →
      (fp.blended = true →
        blendFP fp content = .error .stateError ∧
        rcompare_blend_file (some ps) fi content = (-1, some ps)) ∧
      (fp.blended = false →
        (∃ hk ∈ fp.hunks,
            (splitLines content).length + 1 < hk.destStart + hk.destCount) →
        blendFP fp content = .error .contentMismatchError ∧
        rcompare_blend_file (some ps) fi content = (-1, some ps) ∧
        rcompare_filepatch_is_blended (some ps) fi = 0) := by
  intro ps fi content fp hfp
  constructor
  · intro hb
    have hbl : blendFP fp content = .error .stateError := by
      unfold blendFP
      rw [if_pos hb]
    refine ⟨hbl, ?_⟩
    unfold rcompare_blend_file
    dsimp only []
    rw [hfp]
    dsimp only []
    rw [hbl]
  · intro hb hex
    have hgo := blendGo_beyond (splitLines content) hex 1
    have hbl : blendFP fp content = .error .contentMismatchError := by
      unfold blendFP
      rw [if_neg (show ¬ fp.blended = true by simp [hb])]
      rw [hgo]
    refine ⟨hbl, ?_, ?_⟩
    · unfold rcompare_blend_file
      dsimp only []
      rw [hfp]
      dsimp only []
      rw [hbl]
    · show ((ps.files[fi]?).map fun q => if q.blended then (1 : Nat) else 0).getD 0 = 0
      rw [hfp]
      show (if fp.blended then (1 : Nat) else 0) = 0
      rw [hb]
      rfl

/-- Witness for C6: re-blending the already-blended example errors; and
blending the unblended example against a one-line original errors with a
content mismatch, leaving it unblended. -/
theorem c6_blend_failures_witness :
    (psBlended.files[0]? = some fpBlended ∧ fpBlended.blended = true ∧
      blendFP fpBlended origBlend = .error .stateError ∧
      rcompare_blend_file (some psBlended) 0 origBlend = (-1, some psBlended)) ∧
    (psBlend.files[0]? = some fpBlend ∧ fpBlend.blended = false ∧
      blendFP fpBlend shortBlend = .error .contentMismatchError ∧
      rcompare_blend_file (some psBlend) 0 shortBlend = (-1, some psBlend) ∧
      rcompare_filepatch_is_blended (some psBlend) 0 = 0) := by
  have h1 := (c6_blend_failures psBlended 0 origBlend fpBlended rfl).1 rfl
  have hhs : fpBlend.hunks = [hkBlend0] := rfl
  have hex : ∃ hk ∈ fpBlend.hunks,
      (splitLines shortBlend).length + 1 < hk.destStart + hk.destCount := by
    refine ⟨hkBlend0, ?_, by decide⟩
    rw [hhs]
    exact List.mem_singleton.mpr rfl
  have h2 := (c6_blend_failures psBlend 0 shortBlend fpBlend rfl).2 rfl hex
  exact ⟨⟨rfl, rfl, h1.1, h1.2⟩, ⟨rfl, rfl, h2.1, h2.2.1, h2.2.2⟩⟩

/-! ### C9: accessors return neutral values on null handle or bad index -/

theorem diffNosDiffs_length : ∀ (ds : List Difference) (srcPos : Nat) (off : Int),
    (diffNosDiffs srcPos off ds).length = ds.length := by
  intro ds
  induction ds with
  | nil =>
    intro srcPos off
    rfl
  | cons d t ih =>
    intro srcPos off
    show (diffNosDiffs (srcPos + d.sourceLines.length) (stepOff off d) t).length + 1
      = t.length + 1
    rw [ih]

theorem diffNosHunks_length : ∀ (hs : List Hunk) (off : Int),
    (diffNosHunks off hs).length = hs.length := by
  intro hs
  induction hs with
  | nil =>
    intro off
    rfl
  | cons hd t ih =>
    intro off
    show (diffNosHunks (hunkOff off hd.diffs) t).length + 1 = t.length + 1
    rw [ih]

theorem diffNosHunks_getElem? : ∀ (hs : List Hunk) (off : Int) (hi : Nat) (hk : Hunk),
    hs[hi]? = some hk → ∃ off2,
      (diffNosHunks off hs)[hi]? = some (diffNosDiffs hk.sourceStart off2 hk.diffs) := by
  intro hs
  induction hs with
  | nil =>
    intro off hi hk h
    simp at h
  | cons hd t ih =>
    intro off hi hk hg
    cases hi with
    | zero =>
      rw [List.getElem?_cons_zero] at hg
      injection hg with he
      subst he
      exact ⟨off, List.getElem?_cons_zero⟩
    | succ n =>
      rw [List.getElem?_cons_succ] at hg
      obtain ⟨off2, ho⟩ := ih (hunkOff off hd.diffs) n hk hg
      refine ⟨off2, ?_⟩
      show (diffNosDiffs hd.sourceStart off hd.diffs
        :: diffNosHunks (hunkOff off hd.diffs) t)[n + 1]? = _
      rw [List.getElem?_cons_succ]
      exact ho

/-- C9: every read accessor returns a neutral not-found value — 0 for
counts, line numbers, flags and enum tags, none (NULL) for strings —
whenever the handle is null or any file, hunk, diff or line index is out
of range. -/
theorem c9_accessors_neutral :
    (∀ fi hi di li : Nat,
      rcompare_patchset_file_count none = 0 ∧
      rcompare_patchset_format none = 0 ∧
      rcompare_patchset_generator none = 0 ∧
      rcompare_filepatch_source none fi = none ∧
      rcompare_filepatch_destination none fi = none ∧
      rcompare_filepatch_source_timestamp none fi = none ∧
      rcompare_filepatch_dest_timestamp none fi = none ∧
      rcompare_filepatch_source_revision none fi = none ∧
      rcompare_filepatch_dest_revision none fi = none ∧
      rcompare_filepatch_hunk_count none fi = 0 ∧
      rcompare_filepatch_is_blended none fi = 0 ∧
      rcompare_hunk_source_start none fi hi = 0 ∧
      rcompare_hunk_source_count none fi hi = 0 ∧
      rcompare_hunk_dest_start none fi hi = 0 ∧
      rcompare_hunk_dest_count none fi hi = 0 ∧
      rcompare_hunk_function_name none fi hi = none ∧
      rcompare_hunk_diff_count none fi hi = 0 ∧
      rcompare_hunk_type none fi hi = 0 ∧
      rcompare_diff_type none fi hi di = 0 ∧
      rcompare_diff_source_line_no none fi hi di = 0 ∧
      rcompare_diff_dest_line_no none fi hi di = 0 ∧
      rcompare_diff_source_line_count none fi hi di = 0 ∧
      rcompare_diff_dest_line_count none fi hi di = 0 ∧
      rcompare_diff_source_line_at none fi hi di li = none ∧
      rcompare_diff_dest_line_at none fi hi di li = none ∧
      rcompare_diff_applied none fi hi di = 0 ∧
      rcompare_diff_conflict none fi hi di = 0) ∧
    (∀ (ps : PatchSet) (fi hi di li : Nat), ps.files.length ≤ fi →
      rcompare_filepatch_hunk_count (some ps) fi = 0 ∧
      rcompare_filepatch_source (some ps) fi = none ∧
      rcompare_filepatch_destination (some ps) fi = none ∧
      rcompare_filepatch_source_timestamp (some ps) fi = none ∧
      rcompare_filepatch_dest_timestamp (some ps) fi = none ∧
      rcompare_filepatch_source_revision (some ps) fi = none ∧
      rcompare_filepatch_dest_revision (some ps) fi = none ∧
      rcompare_filepatch_is_blended (some ps) fi = 0 ∧
      rcompare_hunk_source_start (some ps) fi hi = 0 ∧
      rcompare_hunk_source_count (some ps) fi hi = 0 ∧
      rcompare_hunk_dest_start (some ps) fi hi = 0 ∧
      rcompare_hunk_dest_count (some ps) fi hi = 0 ∧
      rcompare_hunk_function_name (some ps) fi hi = none ∧
      rcompare_hunk_diff_count (some ps) fi hi = 0 ∧
      rcompare_hunk_type (some ps) fi hi = 0 ∧
      rcompare_diff_type (some ps) fi hi di = 0 ∧
      rcompare_diff_source_line_no (some ps) fi hi di = 0 ∧
      rcompare_diff_dest_line_no (some ps) fi hi di = 0 ∧
      rcompare_diff_source_line_count (some ps) fi hi di = 0 ∧
      rcompare_diff_dest_line_count (some ps) fi hi di = 0 ∧
      rcompare_diff_source_line_at (some ps) fi hi di li = none ∧
      rcompare_diff_dest_line_at (some ps) fi hi di li = none ∧
      rcompare_diff_applied (some ps) fi hi di = 0 ∧
      rcompare_diff_conflict (some ps) fi hi di = 0) ∧
    (∀ (ps : PatchSet) (fi hi di li : Nat) (fp : FilePatch),
      ps.files[fi]? = some fp → fp.hunks.length ≤ hi →
      rcompare_hunk_diff_count (some ps) fi hi = 0 ∧
      rcompare_hunk_source_start (some ps) fi hi = 0 ∧
      rcompare_hunk_source_count (some ps) fi hi = 0 ∧
      rcompare_hunk_dest_start (some ps) fi hi = 0 ∧
      rcompare_hunk_dest_count (some ps) fi hi = 0 ∧
      rcompare_hunk_function_name (some ps) fi hi = none ∧
      rcompare_hunk_type (some ps) fi hi = 0 ∧
      rcompare_diff_type (some ps) fi hi di = 0 ∧
      rcompare_diff_source_line_no (some ps) fi hi di = 0 ∧
      rcompare_diff_dest_line_no (some ps) fi hi di = 0 ∧
      rcompare_diff_source_line_count (some ps) fi hi di = 0 ∧
      rcompare_diff_dest_line_count (some ps) fi hi di = 0 ∧
      rcompare_diff_source_line_at (some ps) fi hi di li = none ∧
      rcompare_diff_dest_line_at (some ps) fi hi di li = none ∧
      rcompare_diff_applied (some ps) fi hi di = 0 ∧
      rcompare_diff_conflict (some ps) fi hi di = 0) ∧
    (∀ (ps : PatchSet) (fi hi di li : Nat) (fp : FilePatch) (hk : Hunk),
      ps.files[fi]? = some fp → fp.hunks[hi]? = some hk → hk.diffs.length ≤ di →
      rcompare_diff_type (some ps) fi hi di = 0 ∧
      rcompare_diff_source_line_no (some ps) fi hi di = 0 ∧
      rcompare_diff_dest_line_no (some ps) fi hi di = 0 ∧
      rcompare_diff_source_line_count (some ps) fi hi di = 0 ∧
      rcompare_diff_dest_line_count (some ps) fi hi di = 0 ∧
      rcompare_diff_source_line_at (some ps) fi hi di li = none ∧
      rcompare_diff_dest_line_at (some ps) fi hi di li = none ∧
      rcompare_diff_applied (some ps) fi hi di = 0 ∧
      rcompare_diff_conflict (some ps) fi hi di = 0) ∧
    (∀ (ps : PatchSet) (fi hi di li : Nat) (d : Difference),
      diffAt (some ps) fi hi di = some d →
      (d.sourceLines.length ≤ li →
        rcompare_diff_source_line_at (some ps) fi hi di li = none) ∧
      (d.destLines.length ≤ li →
        rcompare_diff_dest_line_at (some ps) fi hi di li = none)) := by
  refine ⟨?_, ?_, ?_, ?_, ?_⟩
  · intro fi hi di li
    simp [rcompare_patchset_file_count, rcompare_patchset_format,
      rcompare_patchset_generator, rcompare_filepatch_source,
      rcompare_filepatch_destination, rcompare_filepatch_source_timestamp,
      rcompare_filepatch_dest_timestamp, rcompare_filepatch_source_revision,
      rcompare_filepatch_dest_revision, rcompare_filepatch_hunk_count,
      rcompare_filepatch_is_blended, rcompare_hunk_source_start,
      rcompare_hunk_source_count, rcompare_hunk_dest_start,
      rcompare_hunk_dest_count, rcompare_hunk_function_name,
      rcompare_hunk_diff_count, rcompare_hunk_type, rcompare_diff_type,
      rcompare_diff_source_line_no, rcompare_diff_dest_line_no,
      rcompare_diff_source_line_count, rcompare_diff_dest_line_count,
      rcompare_diff_source_line_at, rcompare_diff_dest_line_at,
      rcompare_diff_applied, rcompare_diff_conflict, fileAt, hunkAt, diffAt,
      lineNoAt]
  · intro ps fi hi di li hle
    have hf : fileAt (some ps) fi = none := by
      show ps.files[fi]? = none
      exact List.getElem?_eq_none hle
    simp [rcompare_filepatch_source, rcompare_filepatch_destination,
      rcompare_filepatch_source_timestamp, rcompare_filepatch_dest_timestamp,
      rcompare_filepatch_source_revision, rcompare_filepatch_dest_revision,
      rcompare_filepatch_hunk_count, rcompare_filepatch_is_blended,
      rcompare_hunk_source_start, rcompare_hunk_source_count,
      rcompare_hunk_dest_start, rcompare_hunk_dest_count,
      rcompare_hunk_function_name, rcompare_hunk_diff_count,
      rcompare_hunk_type, rcompare_diff_type, rcompare_diff_source_line_no,
      rcompare_diff_dest_line_no, rcompare_diff_source_line_count,
      rcompare_diff_dest_line_count, rcompare_diff_source_line_at,
      rcompare_diff_dest_line_at, rcompare_diff_applied,
      rcompare_diff_conflict, hunkAt, diffAt, lineNoAt, hf]
  · intro ps fi hi di li fp hfp hle
    have hf : fileAt (some ps) fi = some fp := hfp
    have hh : hunkAt (some ps) fi hi = none := by
      show (fileAt (some ps) fi).bind (fun fp => fp.hunks[hi]?) = none
      rw [hf]
      exact List.getElem?_eq_none hle
    have hl : (((fileAt (some ps) fi).map fpLineNos).bind fun l => l[hi]?) = none := by
      rw [hf]
      show (fpLineNos fp)[hi]? = none
      apply List.getElem?_eq_none
      rw [show (fpLineNos fp).length = fp.hunks.length from diffNosHunks_length fp.hunks 0]
      exact hle
    simp [rcompare_hunk_source_start, rcompare_hunk_source_count,
      rcompare_hunk_dest_start, rcompare_hunk_dest_count,
      rcompare_hunk_function_name, rcompare_hunk_diff_count,
      rcompare_hunk_type, rcompare_diff_type, rcompare_diff_source_line_no,
      rcompare_diff_dest_line_no, rcompare_diff_source_line_count,
      rcompare_diff_dest_line_count, rcompare_diff_source_line_at,
      rcompare_diff_dest_line_at, rcompare_diff_applied,
      rcompare_diff_conflict, diffAt, lineNoAt, hh, hl]
  · intro ps fi hi di li fp hk hfp hhk hle
    have hf : fileAt (some ps) fi = some fp := hfp
    have hh : hunkAt (some ps) fi hi = some hk := by
      show (fileAt (some ps) fi).bind (fun fp => fp.hunks[hi]?) = some hk
      rw [hf]
      exact hhk
    have hd : diffAt (some ps) fi hi di = none := by
      show (hunkAt (some ps) fi hi).bind (fun hk => hk.diffs[di]?) = none
      rw [hh]
      exact List.getElem?_eq_none hle
    have hln : lineNoAt (some ps) fi hi di = none := by
      obtain ⟨off2, hoff⟩ := diffNosHunks_getElem? fp.hunks 0 hi hk hhk
      show ((((fileAt (some ps) fi).map fpLineNos).bind fun l => l[hi]?).bind
        fun l => l[di]?) = none
      rw [hf]
      show ((fpLineNos fp)[hi]?.bind fun l => l[di]?) = none
      rw [show (fpLineNos fp)[hi]? = some (diffNosDiffs hk.sourceStart off2 hk.diffs)
        from hoff]
      show (diffNosDiffs hk.sourceStart off2 hk.diffs)[di]? = none
      apply List.getElem?_eq_none
      rw [diffNosDiffs_length]
      exact hle
    simp [rcompare_diff_type, rcompare_diff_source_line_no,
      rcompare_diff_dest_line_no, rcompare_diff_source_line_count,
      rcompare_diff_dest_line_count, rcompare_diff_source_line_at,
      rcompare_diff_dest_line_at, rcompare_diff_applied,
      rcompare_diff_conflict, hd, hln]
  · intro ps fi hi di li d hdat
    constructor
    · intro hle
      show (diffAt (some ps) fi hi di).bind (fun d => d.sourceLines[li]?) = none
      rw [hdat]
      show d.sourceLines[li]? = none
      exact List.getElem?_eq_none hle
    · intro hle
      show (diffAt (some ps) fi hi di).bind (fun d => d.destLines[li]?) = none
      rw [hdat]
      show d.destLines[li]? = none
      exact List.getElem?_eq_none hle

/-- Witness for C9: a null-handle instance and out-of-range file, hunk,
diff and line indices at the §8 scenario PatchSet. -/
theorem c9_accessors_neutral_witness :
    rcompare_patchset_file_count none = 0 ∧
    psC8.files.length ≤ 1 ∧
    rcompare_filepatch_hunk_count (some psC8) 1 = 0 ∧
    fpC8f0.hunks.length ≤ 1 ∧
    rcompare_hunk_diff_count (some psC8) 0 1 = 0 ∧
    hkC8.diffs.length ≤ 2 ∧
    rcompare_diff_type (some psC8) 0 0 2 = 0 ∧
    rcompare_diff_source_line_no (some psC8) 0 0 2 = 0 ∧
    rcompare_diff_source_line_at (some psC8) 0 0 0 1 = none := by
  have h := c9_accessors_neutral
  have hD := h.2.2.2.1 psC8 0 0 2 0 fpC8f0 hkC8 rfl rfl (by decide)
  refine ⟨(h.1 0 0 0 0).1, by decide, (h.2.1 psC8 1 0 0 0 (by decide)).1, by decide,
    (h.2.2.1 psC8 0 1 0 0 fpC8f0 rfl (by decide)).1, by decide, hD.1, hD.2.1,
    (h.2.2.2.2 psC8 0 0 0 1 dC8 rfl).1 (by decide)⟩

/-! ### C5: parse errors on malformed headers and count mismatches -/

theorem parseNatPre_nondigit {c : Char} (r : Chars) (h : isDig c = false) :
    parseNatPre (c :: r) = none := by
  unfold parseNatPre
  rw [List.takeWhile_cons]
  simp [h]

theorem nlFree_fnPart_none : nlFree (fnPart (none : Option Chars)) := by
  intro hm
  simp [fnPart] at hm

theorem nlFree_hunkHeaderLine_none (ss sc ds dc : Nat) (k : HunkType)
    (dfs : List Difference) :
    nlFree (hunkHeaderLine ⟨ss, sc, ds, dc, none, k, dfs⟩) := by
  have c3 : nlFree (' ' :: '@' :: '@' :: fnPart (none : Option Chars)) :=
    nlFree_cons (show ¬(' ' = '\n') by decide)
      (nlFree_cons (show ¬('@' = '\n') by decide)
        (nlFree_cons (show ¬('@' = '\n') by decide) nlFree_fnPart_none))
  have c4 := nlFree_append
    (nlFree_append (nlFree_printNat ds)
      (nlFree_cons (show ¬(',' = '\n') by decide) (nlFree_printNat dc))) c3
  have c5 := nlFree_cons (show ¬(' ' = '\n') by decide)
    (nlFree_cons (show ¬('+' = '\n') by decide) c4)
  have c6 := nlFree_append
    (nlFree_append (nlFree_printNat ss)
      (nlFree_cons (show ¬(',' = '\n') by decide) (nlFree_printNat sc))) c5
  exact nlFree_cons (show ¬('@' = '\n') by decide)
    (nlFree_cons (show ¬('@' = '\n') by decide)
      (nlFree_cons (show ¬(' ' = '\n') by decide)
        (nlFree_cons (show ¬('-' = '\n') by decide) c6)))

theorem parseFiles_cons (fuel : Nat) (l : Chars) (rest : List Chars) :
    parseFiles (fuel + 1) (l :: rest)
      = match parseSrcHeader l with
        | none => .error .parseError
        | some (src, sts) =>
          match rest with
          | [] => .error .parseError
          | l2 :: rest2 =>
            match parseDstHeader l2 with
            | none => .error .parseError
            | some (dst, dts) =>
              match parseHunks (rest2.length + 1) rest2 with
              | .error e => .error e
              | .ok (hs, rem) =>
                match parseFiles fuel rem with
                | .error e => .error e
                | .ok fps => .ok (⟨src, dst, sts, dts, none, none, hs, false⟩ :: fps) :=
  rfl

theorem parseHunks_cons (fuel : Nat) (l : Chars) (rest : List Chars) :
    parseHunks (fuel + 1) (l :: rest)
      = if isHunkStart l then
          match parseHunkHeader l with
          | none => .error .parseError
          | some (ss, sc, ds, dc, fn) =>
            match parseBody sc dc rest with
            | .error e => .error e
            | .ok (raw, rem) =>
              match parseHunks fuel rem with
              | .error e => .error e
              | .ok (hs, rem2) => .ok (⟨ss, sc, ds, dc, fn, .normal, rle raw⟩ :: hs, rem2)
        else .ok ([], l :: rest) :=
  rfl

theorem parseDiff_eq (cs : Chars) :
    parseDiff cs
      = match parseFiles ((skipJunk (splitLines cs)).length + 1)
          (skipJunk (splitLines cs)) with
        | .error e => .error e
        | .ok fps =>
          .ok ⟨fps, if fps.isEmpty then .unknown else .unified, .unknown⟩ :=
  rfl

theorem rcompare_parse_error {cs : Chars} {e : RError}
    (h : parseDiff cs = .error e) :
    rcompare_parse_diff (some cs) cs.length false = (-1, none) := by
  show (match parseDiff (cs.take cs.length) with
    | .error _ => ((-1 : Int), (none : Option PatchSet))
    | .ok ps => (0, some ps)) = (-1, none)
  rw [List.take_length, h]

theorem parseBody_mismatch : ∀ (raw : List (Char × Chars)) (sc dc : Nat),
    validRaw raw → (srcT raw ≠ sc ∨ dstT raw ≠ dc) →
    parseBody sc dc (rawLines raw) = .error .parseError ∨
    ∃ r suf, parseBody sc dc (rawLines raw) = .ok (r, rawLines suf) ∧ suf ≠ [] ∧
      ∀ p ∈ suf, p ∈ raw := by
  intro raw
  induction raw with
  | nil =>
    intro sc dc hv hmm
    left
    have hne : ¬(sc = 0 ∧ dc = 0) := by
      rintro ⟨rfl, rfl⟩
      rcases hmm with h | h <;> exact h rfl
    rw [show rawLines ([] : List (Char × Chars)) = [] from rfl]
    rw [parseBody.eq_def]
    rw [if_neg hne]
  | cons p t ih =>
    obtain ⟨m, s⟩ := p
    intro sc dc hv hmm
    have hv' : validRaw t := fun q hq => hv q (List.mem_cons_of_mem _ hq)
    rw [rawLines_cons]
    rw [parseBody.eq_def]
    by_cases h0 : sc = 0 ∧ dc = 0
    · rw [if_pos h0]
      right
      exact ⟨[], (m, s) :: t, rfl, by simp, fun q hq => hq⟩
    · rw [if_neg h0]
      dsimp only []
      have hm' : m = ' ' ∨ m = '-' ∨ m = '+' := hv (m, s) (by simp)
      rcases hm' with hm' | hm' | hm' <;> subst hm'
      · rw [if_pos rfl]
        by_cases h1 : sc = 0 ∨ dc = 0
        · rw [if_pos h1]
          left
          rfl
        · rw [if_neg h1]
          push_neg at h1
          obtain ⟨hsc, hdc⟩ := h1
          have hst : srcT ((' ', s) :: t) = 1 + srcT t := by simp [srcT]
          have hdt : dstT ((' ', s) :: t) = 1 + dstT t := by simp [dstT]
          have hmm' : srcT t ≠ sc - 1 ∨ dstT t ≠ dc - 1 := by
            rcases hmm with h | h
            · left
              rw [hst] at h
              omega
            · right
              rw [hdt] at h
              omega
          rcases ih (sc - 1) (dc - 1) hv' hmm' with herr | ⟨r, suf, hok, hne, hsub⟩
          · rw [herr]
            left
            rfl
          · rw [hok]
            right
            exact ⟨(' ', s) :: r, suf, rfl, hne,
              fun q hq => List.mem_cons_of_mem _ (hsub q hq)⟩
      · rw [if_neg (by decide), if_pos rfl]
        by_cases h1 : sc = 0
        · rw [if_pos h1]
          left
          rfl
        · rw [if_neg h1]
          have hst : srcT (('-', s) :: t) = 1 + srcT t := by simp [srcT]
          have hdt : dstT (('-', s) :: t) = dstT t := by simp [dstT]
          have hmm' : srcT t ≠ sc - 1 ∨ dstT t ≠ dc := by
            rcases hmm with h | h
            · left
              rw [hst] at h
              omega
            · right
              rw [hdt] at h
              exact h
          rcases ih (sc - 1) dc hv' hmm' with herr | ⟨r, suf, hok, hne, hsub⟩
          · rw [herr]
            left
            rfl
          · rw [hok]
            right
            exact ⟨('-', s) :: r, suf, rfl, hne,
              fun q hq => List.mem_cons_of_mem _ (hsub q hq)⟩
      · rw [if_neg (by decide), if_neg (by decide), if_pos rfl]
        by_cases h1 : dc = 0
        · rw [if_pos h1]
          left
          rfl
        · rw [if_neg h1]
          have hst : srcT (('+', s) :: t) = srcT t := by simp [srcT]
          have hdt : dstT (('+', s) :: t) = 1 + dstT t := by simp [dstT]
          have hmm' : srcT t ≠ sc ∨ dstT t ≠ dc - 1 := by
            rcases hmm with h | h
            · left
              rw [hst] at h
              exact h
            · right
              rw [hdt] at h
              omega
          rcases ih sc (dc - 1) hv' hmm' with herr | ⟨r, suf, hok, hne, hsub⟩
          · rw [herr]
            left
            rfl
          · rw [hok]
            right
            exact ⟨('+', s) :: r, suf, rfl, hne,
              fun q hq => List.mem_cons_of_mem _ (hsub q hq)⟩

/-- C5: the parser returns a parse error (and the FFI wrapper -1 with no
handle) on a `---` source header not followed by a well-formed `+++`
destination header, on a hunk header whose range field is non-numeric,
and on every hunk whose declared counts disagree with the body-line tally
of any marked body in the mismatch family of inputs. -/
theorem c5_parse_errors :
    (∀ (cs l : Chars) (rest : List Chars) (p : Chars × Option Chars),
      skipJunk (splitLines cs) = l :: rest →
      parseSrcHeader l = some p →
      (rest = [] ∨ ∃ l2 rest2, rest = l2 :: rest2 ∧ parseDstHeader l2 = none) →
      parseDiff cs = .error .parseError ∧
      rcompare_parse_diff (some cs) cs.length false = (-1, none)) ∧
    (∀ (cs l1 l2 : Chars) (c : Char) (r : Chars) (rest : List Chars)
        (p q : Chars × Option Chars),
      skipJunk (splitLines cs)
        = l1 :: l2 :: ('@' :: '@' :: ' ' :: '-' :: c :: r) :: rest →
      parseSrcHeader l1 = some p →
      parseDstHeader l2 = some q →
      isDig c = false →
      parseDiff cs = .error .parseError ∧
      rcompare_parse_diff (some cs) cs.length false = (-1, none)) ∧
    (∀ (ss sc ds dc : Nat) (raw : List (Char × Chars)),
      validRaw raw →
      (∀ p ∈ raw, nlFree p.2) →
      (∀ p ∈ raw, parseSrcHeader (p.1 :: p.2) = none) →
      (srcT raw ≠ sc ∨ dstT raw ≠ dc) →
      parseDiff (mismatchInput ss sc ds dc raw) = .error .parseError ∧
      rcompare_parse_diff (some (mismatchInput ss sc ds dc raw))
        (mismatchInput ss sc ds dc raw).length false = (-1, none)) := by
  refine ⟨?_, ?_, ?_⟩
  · intro cs l rest p hskip hsrc hrest
    obtain ⟨src, sts⟩ := p
    have hpd : parseDiff cs = .error .parseError := by
      rcases hrest with rfl | ⟨l2, rest2, rfl, hdst⟩
      · rw [parseDiff_eq, hskip]
        rw [parseFiles_cons]
        rw [hsrc]
      · rw [parseDiff_eq, hskip]
        rw [parseFiles_cons]
        rw [hsrc]
        dsimp only []
        rw [hdst]
    exact ⟨hpd, rcompare_parse_error hpd⟩
  · intro cs l1 l2 c r rest p q hskip hsrc hdst hdig
    obtain ⟨src, sts⟩ := p
    obtain ⟨dst, dts⟩ := q
    have hnp : parseNatPre (c :: r) = none := parseNatPre_nondigit r hdig
    have hph : parseHunkHeader ('@' :: '@' :: ' ' :: '-' :: c :: r) = none := by
      show (match parseNatPre (c :: r) with
        | none => none
        | some (ss2, r1) =>
          match parseCountOpt r1 with
          | none => none
          | some (sc2, r2) =>
            match r2 with
            | ' ' :: '+' :: r3 =>
              match parseNatPre r3 with
              | none => none
              | some (ds2, r4) =>
                match parseCountOpt r4 with
                | none => none
                | some (dc2, r5) =>
                  match r5 with
                  | ' ' :: '@' :: '@' :: r6 =>
                    match parseFnPart r6 with
                    | none => none
                    | some fn2 => some (ss2, sc2, ds2, dc2, fn2)
                  | _ => none
            | _ => none) = none
      rw [hnp]
    have hhk : parseHunks
        ((('@' :: '@' :: ' ' :: '-' :: c :: r) :: rest).length + 1)
        (('@' :: '@' :: ' ' :: '-' :: c :: r) :: rest) = .error .parseError := by
      rw [parseHunks_cons]
      rw [if_pos (show isHunkStart ('@' :: '@' :: ' ' :: '-' :: c :: r) = true from rfl)]
      rw [hph]
    have hpd : parseDiff cs = .error .parseError := by
      rw [parseDiff_eq, hskip]
      rw [parseFiles_cons]
      rw [hsrc]
      dsimp only []
      rw [hdst]
      dsimp only []
      rw [hhk]
    exact ⟨hpd, rcompare_parse_error hpd⟩
  · intro ss sc ds dc raw hv hnl hnosrc hmm
    have hnlAll : ∀ l ∈ (('-' :: '-' :: '-' :: ' ' :: 'a' :: []) ::
        ('+' :: '+' :: '+' :: ' ' :: 'b' :: []) ::
        hunkHeaderLine ⟨ss, sc, ds, dc, none, .normal, []⟩ :: rawLines raw),
        nlFree l := by
      intro l hl
      rcases List.mem_cons.mp hl with rfl | hl
      · exact (by decide : ('\n' : Char) ∉ ('-' :: '-' :: '-' :: ' ' :: 'a' :: []))
      rcases List.mem_cons.mp hl with rfl | hl
      · exact (by decide : ('\n' : Char) ∉ ('+' :: '+' :: '+' :: ' ' :: 'b' :: []))
      rcases List.mem_cons.mp hl with rfl | hl
      · exact nlFree_hunkHeaderLine_none ss sc ds dc .normal []
      · simp only [rawLines, List.mem_map] at hl
        obtain ⟨pq, hp, rfl⟩ := hl
        have hne : ¬(pq.1 = '\n') := by
          rcases hv pq hp with h | h | h <;> rw [h] <;> decide
        exact nlFree_cons hne (hnl pq hp)
    have hsplit : splitLines (mismatchInput ss sc ds dc raw)
        = ('-' :: '-' :: '-' :: ' ' :: 'a' :: []) ::
          ('+' :: '+' :: '+' :: ' ' :: 'b' :: []) ::
          hunkHeaderLine ⟨ss, sc, ds, dc, none, .normal, []⟩ :: rawLines raw :=
      splitLines_unlines hnlAll
    have hskip : skipJunk (('-' :: '-' :: '-' :: ' ' :: 'a' :: []) ::
        ('+' :: '+' :: '+' :: ' ' :: 'b' :: []) ::
        hunkHeaderLine ⟨ss, sc, ds, dc, none, .normal, []⟩ :: rawLines raw)
        = ('-' :: '-' :: '-' :: ' ' :: 'a' :: []) ::
          ('+' :: '+' :: '+' :: ' ' :: 'b' :: []) ::
          hunkHeaderLine ⟨ss, sc, ds, dc, none, .normal, []⟩ :: rawLines raw := by
      unfold skipJunk
      rw [List.dropWhile_cons]
      rw [if_neg (by decide)]
    have hpf : parseFiles ((('-' :: '-' :: '-' :: ' ' :: 'a' :: []) ::
        ('+' :: '+' :: '+' :: ' ' :: 'b' :: []) ::
        hunkHeaderLine ⟨ss, sc, ds, dc, none, .normal, []⟩ :: rawLines raw).length + 1)
        (('-' :: '-' :: '-' :: ' ' :: 'a' :: []) ::
          ('+' :: '+' :: '+' :: ' ' :: 'b' :: []) ::
          hunkHeaderLine ⟨ss, sc, ds, dc, none, .normal, []⟩ :: rawLines raw)
        = .error .parseError := by
      rw [parseFiles_cons]
      rw [show parseSrcHeader ('-' :: '-' :: '-' :: ' ' :: 'a' :: [])
        = some ('a' :: [], none) from rfl]
      dsimp only []
      rw [show parseDstHeader ('+' :: '+' :: '+' :: ' ' :: 'b' :: [])
        = some ('b' :: [], none) from rfl]
      dsimp only []
      rcases parseBody_mismatch raw sc dc hv hmm with herr | ⟨r, suf, hok, hne, hsub⟩
      · have hhk : parseHunks
            ((hunkHeaderLine ⟨ss, sc, ds, dc, none, .normal, []⟩
              :: rawLines raw).length + 1)
            (hunkHeaderLine ⟨ss, sc, ds, dc, none, .normal, []⟩ :: rawLines raw)
            = .error .parseError := by
          rw [parseHunks_cons]
          rw [if_pos (isHunkStart_headerLine _)]
          rw [parseHunkHeader_print]
          dsimp only []
          rw [herr]
        rw [hhk]
      · cases suf with
        | nil => exact absurd rfl hne
        | cons qh suf2 =>
          obtain ⟨qm, qs⟩ := qh
          have hqmem : ((qm, qs) : Char × Chars) ∈ raw := hsub (qm, qs) (by simp)
          have hqm : qm = ' ' ∨ qm = '-' ∨ qm = '+' := hv (qm, qs) hqmem
          have hqns : isHunkStart (qm :: qs) = false := by
            apply isHunkStart_ne
            rcases hqm with h | h | h <;> rw [h] <;> decide
          have hqnosrc : parseSrcHeader (qm :: qs) = none := hnosrc (qm, qs) hqmem
          have hhk : parseHunks
              ((hunkHeaderLine ⟨ss, sc, ds, dc, none, .normal, []⟩
                :: rawLines raw).length + 1)
              (hunkHeaderLine ⟨ss, sc, ds, dc, none, .normal, []⟩ :: rawLines raw)
              = .ok ([⟨ss, sc, ds, dc, none, .normal, rle r⟩],
                  (qm :: qs) :: rawLines suf2) := by
            rw [parseHunks_cons]
            rw [if_pos (isHunkStart_headerLine _)]
            rw [parseHunkHeader_print]
            dsimp only []
            rw [hok, rawLines_cons]
            dsimp only []
            rw [show (hunkHeaderLine ⟨ss, sc, ds, dc, none, .normal, []⟩
              :: rawLines raw).length = (rawLines raw).length + 1 from rfl]
            rw [parseHunks_cons]
            rw [if_neg (by rw [hqns]; exact Bool.false_ne_true)]
          rw [hhk]
          dsimp only []
          rw [show (('-' :: '-' :: '-' :: ' ' :: 'a' :: []) ::
            ('+' :: '+' :: '+' :: ' ' :: 'b' :: []) ::
            hunkHeaderLine ⟨ss, sc, ds, dc, none, .normal, []⟩
              :: rawLines raw).length = ((rawLines raw).length + 2) + 1 from rfl]
          rw [parseFiles_cons]
          rw [hqnosrc]
    have hpd : parseDiff (mismatchInput ss sc ds dc raw) = .error .parseError := by
      rw [parseDiff_eq, hsplit, hskip]
      rw [hpf]
    exact ⟨hpd, rcompare_parse_error hpd⟩

/-- Witness for C5: a `---` line with no `+++` after it; a hunk header
with a non-numeric range field; and a declared count 2 over a one-line
body. -/
theorem c5_parse_errors_witness :
    (parseDiff ("--- a/f\n").toList = .error .parseError ∧
      rcompare_parse_diff (some ("--- a/f\n").toList)
        ("--- a/f\n").toList.length false = (-1, none)) ∧
    (parseDiff ("--- a\n+++ b\n@@ -x @@\n").toList = .error .parseError ∧
      rcompare_parse_diff (some ("--- a\n+++ b\n@@ -x @@\n").toList)
        ("--- a\n+++ b\n@@ -x @@\n").toList.length false = (-1, none)) ∧
    (parseDiff (mismatchInput 1 2 1 1 [(' ', 'u' :: [])]) = .error .parseError ∧
      rcompare_parse_diff (some (mismatchInput 1 2 1 1 [(' ', 'u' :: [])]))
        (mismatchInput 1 2 1 1 [(' ', 'u' :: [])]).length false = (-1, none)) := by
  refine ⟨?_, ?_, ?_⟩
  · exact c5_parse_errors.1 ("--- a/f\n").toList ("--- a/f").toList []
      (("a/f").toList, none) rfl rfl (Or.inl rfl)
  · exact c5_parse_errors.2.1 ("--- a\n+++ b\n@@ -x @@\n").toList
      ("--- a").toList ("+++ b").toList 'x' (' ' :: '@' :: '@' :: []) []
      (("a").toList, none) (("b").toList, none) rfl rfl rfl rfl
  · exact c5_parse_errors.2.2 1 2 1 1 [(' ', 'u' :: [])]
      (show ∀ p ∈ [((' ', 'u' :: []) : Char × Chars)],
        p.1 = ' ' ∨ p.1 = '-' ∨ p.1 = '+' by decide)
      (show ∀ p ∈ [((' ', 'u' :: []) : Char × Chars)], ('\n' : Char) ∉ p.2 by decide)
      (by decide) (Or.inl (by decide))

/-! ### C8: the concrete §8 scenario -/

/-- C8: the input `--- a/f\n+++ b/f\n@@ -1,2 +1,2 @@\n-old\n+new\n unchanged\n`
parses to one FilePatch with one Hunk containing exactly one Change
Difference (source line 1, count 1, lines [old]; destination line 1,
count 1, lines [new]) followed by one Unchanged Difference (line
`unchanged`); applying flat index 0 of file 0 succeeds and sets that
Difference's applied flag; and re-serializing after the apply reproduces
the input text, in particular the `-old` and `+new` marker lines. -/
theorem c8_concrete_scenario :
    rcompare_parse_diff (some inpC8) inpC8.length false = (0, some psC8) ∧
    psC8 = ⟨[⟨('a' :: '/' :: 'f' :: []), ('b' :: '/' :: 'f' :: []),
      none, none, none, none,
      [⟨1, 2, 1, 2, none, .normal,
        [⟨.change, [('o' :: 'l' :: 'd' :: [])], [('n' :: 'e' :: 'w' :: [])],
           false, false⟩,
         ⟨.unchanged,
           [('u' :: 'n' :: 'c' :: 'h' :: 'a' :: 'n' :: 'g' :: 'e' :: 'd' :: [])],
           [('u' :: 'n' :: 'c' :: 'h' :: 'a' :: 'n' :: 'g' :: 'e' :: 'd' :: [])],
           false, false⟩]⟩],
      false⟩], .unified, .unknown⟩ ∧
    rcompare_patchset_file_count (some psC8) = 1 ∧
    rcompare_filepatch_hunk_count (some psC8) 0 = 1 ∧
    rcompare_hunk_diff_count (some psC8) 0 0 = 2 ∧
    rcompare_diff_type (some psC8) 0 0 0 = 1 ∧
    rcompare_diff_source_line_no (some psC8) 0 0 0 = 1 ∧
    rcompare_diff_dest_line_no (some psC8) 0 0 0 = 1 ∧
    rcompare_diff_source_line_count (some psC8) 0 0 0 = 1 ∧
    rcompare_diff_dest_line_count (some psC8) 0 0 0 = 1 ∧
    rcompare_diff_source_line_at (some psC8) 0 0 0 0 = some ('o' :: 'l' :: 'd' :: []) ∧
    rcompare_diff_dest_line_at (some psC8) 0 0 0 0 = some ('n' :: 'e' :: 'w' :: []) ∧
    rcompare_diff_type (some psC8) 0 0 1 = 0 ∧
    rcompare_diff_source_line_at (some psC8) 0 0 1 0
      = some ('u' :: 'n' :: 'c' :: 'h' :: 'a' :: 'n' :: 'g' :: 'e' :: 'd' :: []) ∧
    rcompare_diff_applied (some psC8) 0 0 0 = 0 ∧
    rcompare_apply_difference (some psC8) 0 0 = (0, some psC8app) ∧
    rcompare_diff_applied (some psC8app) 0 0 0 = 1 ∧
    rcompare_serialize_diff (some psC8app) = some inpC8 :=
  ⟨rfl, rfl, rfl, rfl, rfl, rfl, rfl, rfl, rfl, rfl, rfl, rfl, rfl, rfl, rfl, rfl,
    rfl, rfl⟩

/-! ### C10: null arguments of rcompare_parse_diff -/

/-- C10: for every length and every input, `rcompare_parse_diff` called
with a null input pointer or a null out parameter returns -1 and
produces no PatchSet handle. -/
theorem c10_parse_null_arguments :
    ∀ (len : Nat) (cs : Chars),
      rcompare_parse_diff none len false = (-1, none) ∧
      rcompare_parse_diff none len true = (-1, none) ∧
      rcompare_parse_diff (some cs) len true = (-1, none) :=
  fun _ _ => ⟨rfl, rfl, rfl⟩

end RCompare
